import Mathlib

/-!
# prometheus-oidc: `internal/config/config.go`

A shallow embedding of `config.Parse` and of the values it works on.

`Parse` talks to five collaborators: `envconfig.Process`, `rand.Read`,
`os.Open`, the YAML decoder and `(*ACL).ParseAndStoreACL`.  They are gathered
in a `World`; `Parse` is a function of the world and returns the Go result
pair `(c, err)` together with the sequence of collaborator calls it made.

Go maps are association lists without repeated keys.  The order of the list
is the order in which the single `range` statement executed over the map
visits it, which the Go language leaves unspecified.
-/

namespace PromOidc

/-! ## Values -/

/-- One element of a Go `[]byte`. -/
abbrev Byte := Fin 256

/-- A Go `error` value.  `raised` is an error value built by a collaborator
(`origin` names who built it); `errorf` is a value built by `fmt.Errorf`. -/
inductive GoError where
  | raised (origin : String) (text : String)
  | errorf (text : String)
deriving DecidableEq, Repr

/-- The method `Error()` of an error value, used by the verb `%s`. -/
def GoError.Error : GoError → String
  | GoError.raised _ t => t
  | GoError.errorf t => t

/-- `m[k]` with the comma-ok form, on an association list. -/
def mapGet {K V : Type} [DecidableEq K] : List (K × V) → K → Option V
  | [], _ => none
  | (k1, v) :: rest, k => if k1 = k then some v else mapGet rest k

/-- `m[k] = v` on an association list: the value of an existing key is
replaced in place, a new key is added. -/
def mapSet {K V : Type} [DecidableEq K] : List (K × V) → K → V → List (K × V)
  | [], k, v => [(k, v)]
  | (k1, v1) :: rest, k, v =>
    if k1 = k then (k, v) :: rest else (k1, v1) :: mapSet rest k v

/-- The keys of an association list, in list order. -/
def mapKeys {K V : Type} (m : List (K × V)) : List K := m.map Prod.fst

/-- A Go `map[K]V` as it is handed to a `range` statement: the entries in the
order the iteration visits them, no key twice. -/
structure GoMap (K V : Type) where
  entries : List (K × V)
  nodup : (entries.map Prod.fst).Nodup

/-- The map literal `map[K]V{}`. -/
def GoMap.empty {K V : Type} : GoMap K V := ⟨[], List.nodup_nil⟩

/-- Modelled from the spec: the type `OidcRole`, declared outside
`config.go`.  "Role — an opaque identifier (string)"; `OidcRole(role)` is the
conversion of a `string` to it. -/
abbrev OidcRole := String

/-- Modelled from the spec: the type `ACL` with its fields `Named`
(`NamedACL`) and `Regex` (`[]RegexACL`), declared outside `config.go`.  "A
mapping from Exact MetricIdentifier → QueryConstraint (unique keys), plus an
ordered sequence of (Pattern, QueryConstraint) pairs"; identifiers, patterns
and constraints are strings. -/
structure ACL where
  Named : List (String × String)
  Regex : List (String × String)
deriving DecidableEq, Repr

/-- The composite literal `&ACL{Named: NamedACL{}, Regex: []RegexACL{}}`. -/
def emptyACL : ACL := ⟨[], []⟩

/-- The struct `Config`.  `Parse` uses the field `OIDCMap` as the map type
`OIDCMap`, from role to `*ACL`: it assigns `OIDCMap{}` to it and indexes it by
role.  A nil map and an empty map are both the empty list; writing through a
`*ACL` taken from the map is storing the new ACL under the same key. -/
structure Config where
  Listen : String
  URL : String
  PrometheusURL : String
  CookieSecret : List Byte
  AuthProvider : String
  OidcIssuer : String
  OidcClientID : String
  OidcClientSecret : String
  OidcRolesClaim : String
  ACLFile : String
  OIDCMap : List (OidcRole × ACL)
deriving DecidableEq, Repr

/-- The zero value `Config{}`. -/
def Config.zero : Config :=
  { Listen := "", URL := "", PrometheusURL := "", CookieSecret := [],
    AuthProvider := "", OidcIssuer := "", OidcClientID := "",
    OidcClientSecret := "", OidcRolesClaim := "", ACLFile := "", OIDCMap := [] }

/-! ## Collaborators and their calls -/

/-- One call `Parse` makes to the outside, with the error it got back
(`none` is Go's `nil`). -/
inductive Event (Q : Type) where
  | envProcess (err : Option GoError)
  | logInfo (msg : String)
  | logWarn (msg : String)
  | randRead (len : Nat) (err : Option GoError)
  | osOpen (name : String) (err : Option GoError)
  | yamlDecode (err : Option GoError)
  | parseAndStoreACL (role : OidcRole) (metricName : String) (query : Q)
      (err : Option GoError)
deriving DecidableEq, Repr

/-- The error a call came back with; logging has none. -/
def Event.failure {Q : Type} : Event Q → Option GoError
  | Event.envProcess e => e
  | Event.logInfo _ => none
  | Event.logWarn _ => none
  | Event.randRead _ e => e
  | Event.osOpen _ e => e
  | Event.yamlDecode e => e
  | Event.parseAndStoreACL _ _ _ e => e

/-- The collaborators of `Parse`.  `Q` is the dynamic type behind the
`interface{}` values of the decoded document.

* `envProcess c` is `envconfig.Process("", c)`: the struct after the call and
  the error;
* `randBytes`, `randErr` are what `rand.Read` writes into its argument and
  the error it returns;
* `osOpen name` is `os.Open(name)`; a handle is a string that identifies the
  open file;
* `yamlDecode fp` is `yaml.NewDecoder(fp).Decode(&OIDCMapLoad)`: the map
  after the call, in the order the loops of `Parse` will visit it;
* `ParseAndStoreACL acl metricName query` is the method of `*ACL`: the
  receiver after the call and the error. -/
structure World (Q : Type) where
  envProcess : Config → Config × Option GoError
  randBytes : List Byte
  randErr : Option GoError
  osOpen : String → Except GoError String
  yamlDecode : String → Except GoError (GoMap String (GoMap String Q))
  ParseAndStoreACL : ACL → String → Q → ACL × Option GoError

/-- What `Parse` returns, `(c, err)`, and the calls it made, in order. -/
structure Outcome (Q : Type) where
  c : Option Config
  err : Option GoError
  trace : List (Event Q)

/-! ## `Parse` -/

/-- Writing `src` into the slice `buf`: a slice keeps its length, bytes beyond
what was written keep their value. -/
def overwrite (buf src : List Byte) : List Byte :=
  src.take buf.length ++ buf.drop src.length

/-- Lines 41–55: the `switch` on `len(c.CookieSecret)`. -/
def secretStep {Q : Type} (w : World Q) (c : Config) :
    List (Event Q) × Except GoError Config :=
  let l := c.CookieSecret.length
  if l = 64 then
    ([Event.logInfo "cookie secret provided via env"], Except.ok c)
  else if l = 32 then
    ([Event.logInfo "cookie secret provided via env"], Except.ok c)
  else if l = 0 then
    let c1 := { c with CookieSecret := overwrite (List.replicate 64 0) w.randBytes }
    match w.randErr with
    | some err =>
      ([Event.logWarn "no cookie secret provided, generating a random one",
        Event.randRead 64 (some err)],
       Except.error (GoError.errorf ("unable to generate secret key: " ++ err.Error)))
    | none =>
      ([Event.logWarn "no cookie secret provided, generating a random one",
        Event.randRead 64 none],
       Except.ok c1)
  else
    ([], Except.error (GoError.errorf
      ("unable to use provided secret key with " ++ toString l ++ " bytes, use 32 or 64")))

/-- Lines 78–83: the inner loop over one role's entries, on the ACL behind
`loadInto`.  Returns the calls made, the ACL after them and the error that
stopped the loop, if any. -/
def loadEntries {Q : Type} (store : ACL → String → Q → ACL × Option GoError)
    (role : OidcRole) : ACL → List (String × Q) → List (Event Q) × ACL × Option GoError
  | acl, [] => ([], acl, none)
  | acl, (metricName, query) :: rest =>
    let r := store acl metricName query
    match r.2 with
    | some err => ([Event.parseAndStoreACL role metricName query (some err)], r.1, some err)
    | none =>
      let r2 := loadEntries store role r.1 rest
      (Event.parseAndStoreACL role metricName query none :: r2.1, r2.2.1, r2.2.2)

/-- Lines 68–84: the outer loop over the roles of the decoded document, on
`c.OIDCMap`. -/
def loadRoles {Q : Type} (store : ACL → String → Q → ACL × Option GoError) :
    List (OidcRole × ACL) → List (String × GoMap String Q) →
      List (Event Q) × List (OidcRole × ACL) × Option GoError
  | om, [] => ([], om, none)
  | om, (role, aclLoad) :: rest =>
    let om1 := match mapGet om role with
      | some _ => om
      | none => mapSet om role emptyACL
    let loadInto := (mapGet om1 role).getD emptyACL
    let r := loadEntries store role loadInto aclLoad.entries
    let om2 := mapSet om1 role r.2.1
    match r.2.2 with
    | some err => (r.1, om2, some err)
    | none =>
      let r2 := loadRoles store om2 rest
      (r.1 ++ r2.1, r2.2.1, r2.2.2)

/-- The function `Parse`.  The named result `err` is nil at the final bare
`return`: every assignment to it was followed by a test that it is nil. -/
def Parse {Q : Type} (w : World Q) : Outcome Q :=
  let r0 := w.envProcess Config.zero
  match r0.2 with
  | some err => ⟨none, some err, [Event.envProcess (some err)]⟩
  | none =>
    match secretStep w r0.1 with
    | (t1, Except.error err) => ⟨none, some err, Event.envProcess none :: t1⟩
    | (t1, Except.ok c) =>
      match w.osOpen c.ACLFile with
      | Except.error err =>
        ⟨none, some (GoError.errorf ("unable to open config: " ++ err.Error)),
          Event.envProcess none :: t1 ++ [Event.osOpen c.ACLFile (some err)]⟩
      | Except.ok fp =>
        match w.yamlDecode fp with
        | Except.error err =>
          ⟨none, some (GoError.errorf ("unable to load config: " ++ err.Error)),
            Event.envProcess none :: t1 ++
              [Event.osOpen c.ACLFile none, Event.yamlDecode (some err)]⟩
        | Except.ok OIDCMapLoad =>
          let r := loadRoles w.ParseAndStoreACL [] OIDCMapLoad.entries
          let t := Event.envProcess none :: t1 ++
              [Event.osOpen c.ACLFile none, Event.yamlDecode none] ++ r.1
          match r.2.2 with
          | some err => ⟨none, some err, t⟩
          | none => ⟨some { c with OIDCMap := r.2.1 }, none, t⟩

/-! ## Reading a run -/

/-- The call is a call of `ParseAndStoreACL`. -/
def Event.isStore {Q : Type} : Event Q → Bool
  | Event.parseAndStoreACL _ _ _ _ => true
  | _ => false

/-- The call is a call of `os.Open`. -/
def Event.isOpen {Q : Type} : Event Q → Bool
  | Event.osOpen _ _ => true
  | _ => false

/-- The arguments of the calls of `ParseAndStoreACL` in a run, in order:
role of the receiver, `metricName`, `query`. -/
def storeCalls {Q : Type} : List (Event Q) → List (OidcRole × String × Q)
  | [] => []
  | Event.parseAndStoreACL role metricName query _ :: rest =>
    (role, metricName, query) :: storeCalls rest
  | _ :: rest => storeCalls rest

/-- The arguments of the calls of `ParseAndStoreACL` made on the ACL of one
role, in order. -/
def callsForRole {Q : Type} (role : OidcRole) (t : List (Event Q)) : List (String × Q) :=
  ((storeCalls t).filter (fun x => decide (x.1 = role))).map Prod.snd

/-- The calls of a loop over one role's entries that all succeed. -/
def okCalls {Q : Type} (role : OidcRole) (entries : List (String × Q)) : List (Event Q) :=
  entries.map (fun e => Event.parseAndStoreACL role e.1 e.2 none)

/-- The calls of the loop over the roles of a decoded document that all
succeed. -/
def okRoleCalls {Q : Type} (m : List (String × GoMap String Q)) : List (Event Q) :=
  m.flatMap (fun ra => okCalls ra.1 ra.2.entries)

/-- The pairs of a decoded document, role by role, as `Parse` is to hand them
to `ParseAndStoreACL`. -/
def entriesOf {Q : Type} (m : List (String × GoMap String Q)) :
    List (OidcRole × String × Q) :=
  m.flatMap (fun ra => ra.2.entries.map (fun e => (ra.1, e.1, e.2)))

/-- Starting from `acl`, apply `ParseAndStoreACL` once to each pair of the
list, in turn, with identifier and constraint as they stand. -/
def applyEach {Q : Type} (store : ACL → String → Q → ACL × Option GoError)
    (acl : ACL) (entries : List (String × Q)) : ACL :=
  entries.foldl (fun a e => (store a e.1 e.2).1) acl

/-- Every call of `ParseAndStoreACL` over the pairs of one role succeeds: the
call on the first pair returns a nil error, and so does each later call on
the ACL the earlier ones left. -/
def entriesSucceed {Q : Type} (store : ACL → String → Q → ACL × Option GoError) :
    ACL → List (String × Q) → Bool
  | _, [] => true
  | acl, (metricName, query) :: rest =>
    (store acl metricName query).2.isNone &&
      entriesSucceed store (store acl metricName query).1 rest

/-- For each role of a decoded document, the ACL obtained from an empty one
by applying `ParseAndStoreACL` to the role's own pairs. -/
def builtMap {Q : Type} (store : ACL → String → Q → ACL × Option GoError)
    (m : List (String × GoMap String Q)) : List (OidcRole × ACL) :=
  m.map (fun ra => (ra.1, applyEach store emptyACL ra.2.entries))

/-- The map the decoder returned in a run, if the run got as far as decoding
and the decoder succeeded. -/
def decodedDocument {Q : Type} (w : World Q) : Option (GoMap String (GoMap String Q)) :=
  match (w.envProcess Config.zero).2 with
  | some _ => none
  | none =>
    match (secretStep w (w.envProcess Config.zero).1).2 with
    | Except.error _ => none
    | Except.ok c =>
      match w.osOpen c.ACLFile with
      | Except.error _ => none
      | Except.ok fp =>
        match w.yamlDecode fp with
        | Except.error _ => none
        | Except.ok m => some m

/-! ## The decoder of `gopkg.in/yaml.v2` on a mapping

`Parse` uses the decoder as `yaml.NewDecoder(fp).Decode(&OIDCMapLoad)`, without
`SetStrict(true)`.  In that mode the decoder stores the pairs of a YAML
mapping one after the other with `out.SetMapIndex(k, v)`. -/

/-- `m[k] = v` on a Go map. -/
def GoMap.set {K V : Type} [DecidableEq K] (m : GoMap K V) (k : K) (v : V) : GoMap K V :=
  ⟨mapSet m.entries k v, by
    have key : ∀ l : List (K × V), (l.map Prod.fst).Nodup →
        ((mapSet l k v).map Prod.fst).Nodup ∧
          ∀ x, x ∈ (mapSet l k v).map Prod.fst → x = k ∨ x ∈ l.map Prod.fst := by
      intro l
      induction l with
      | nil => intro _; simp [mapSet]
      | cons p rest ih =>
        obtain ⟨k1, v1⟩ := p
        intro h
        rw [List.map_cons, List.nodup_cons] at h
        by_cases hk : k1 = k
        · subst hk
          simp only [mapSet, if_true, List.map_cons, List.nodup_cons]
          exact ⟨⟨h.1, h.2⟩, fun x hx => Or.inr hx⟩
        · simp only [mapSet, if_neg hk, List.map_cons, List.nodup_cons]
          refine ⟨⟨?_, (ih h.2).1⟩, ?_⟩
          · intro hmem
            rcases (ih h.2).2 k1 hmem with h1 | h1
            · exact hk h1
            · exact h.1 h1
          · intro x hx
            rcases List.mem_cons.1 hx with h1 | h1
            · exact Or.inr (List.mem_cons.2 (Or.inl h1))
            · rcases (ih h.2).2 x h1 with h2 | h2
              · exact Or.inl h2
              · exact Or.inr (List.mem_cons.2 (Or.inr h2))
    exact (key m.entries m.nodup).1⟩

/-- A policy document as written: the roles in the order they are declared,
under each role its (identifier, constraint) pairs in the order they are
declared. -/
abbrev Document (Q : Type) := List (String × List (String × Q))

/-- Decoding one YAML mapping into a fresh Go map, pair by pair. -/
def decodeMapping {V : Type} (pairs : List (String × V)) : GoMap String V :=
  pairs.foldl (fun m kv => m.set kv.1 kv.2) GoMap.empty

/-- Decoding a document into `map[string]map[string]interface{}`. -/
def decodeDocument {Q : Type} (doc : Document Q) : GoMap String (GoMap String Q) :=
  decodeMapping (doc.map (fun rv => (rv.1, decodeMapping rv.2)))

/-- The pairs declared under a role in a document, in declaration order. -/
def declaredUnder {Q : Type} (doc : Document Q) (role : String) : List (String × Q) :=
  (doc.filter (fun rv => decide (rv.1 = role))).flatMap Prod.snd

/-- Two Go maps hold the same keys with the same values, whatever the order
in which they are visited. -/
def sameEntries {V : Type} [DecidableEq V] (a b : GoMap String V) : Bool :=
  (mapKeys a.entries ++ mapKeys b.entries).all
    (fun k => decide (mapGet a.entries k = mapGet b.entries k))

/-- Two decoded documents hold the same roles with the same pairs, whatever
the order in which they are visited. -/
def sameContent {Q : Type} [DecidableEq Q] (a b : GoMap String (GoMap String Q)) : Bool :=
  (mapKeys a.entries ++ mapKeys b.entries).all
    (fun r =>
      match mapGet a.entries r, mapGet b.entries r with
      | some x, some y => sameEntries x y
      | _, _ => false)

/-! ## The ACL entry compiler and the authorizer of the specification -/

/-- Modelled from the spec: the method `(*ACL).ParseAndStoreACL`, which is
not in `config.go` (§4.2).  An identifier that begins with the reserved
prefix `~` is a Pattern, compiled eagerly (`compiles` is the regular
expression compiler's verdict) and appended to the ordered list; it "fails
with `InvalidPattern`" if compilation fails.  Any other identifier is Exact
and is inserted into the exact-match table; it "fails with `DuplicateEntry`
on re-declaration". -/
def specParseAndStoreACL (compiles : String → Bool) (acl : ACL) (metricName : String)
    (query : String) : ACL × Option GoError :=
  if metricName.data.head? = some '~' then
    if compiles (String.mk metricName.data.tail) then
      ({ acl with Regex := acl.Regex ++ [(String.mk metricName.data.tail, query)] }, none)
    else
      (acl, some (GoError.raised "InvalidPattern" metricName))
  else
    match mapGet acl.Named metricName with
    | some _ => (acl, some (GoError.raised "DuplicateEntry" metricName))
    | none => ({ acl with Named := acl.Named ++ [(metricName, query)] }, none)

/-- Modelled from the spec: `AuthorizationDecision` (§3), "{allowed: bool,
matchedConstraint: optional QueryConstraint, matchedRole: optional Role}". -/
structure AuthorizationDecision where
  allowed : Bool
  matchedConstraint : Option String
  matchedRole : Option OidcRole
deriving DecidableEq, Repr

/-- The decision "deny with no constraint". -/
def deny : AuthorizationDecision := ⟨false, none, none⟩

/-- Modelled from the spec: steps 2–4 of the Query Authorizer (§4.4) for
one ACL, which is not in `config.go`: the exact-match check first, then the
ordered pattern list, first match wins.  `fullMatch pattern metric` is the
regular expression engine's full-match test. -/
def aclConstraint (fullMatch : String → String → Bool) (acl : ACL) (metric : String) :
    Option String :=
  match mapGet acl.Named metric with
  | some constraint => some constraint
  | none => (acl.Regex.find? (fun p => fullMatch p.1 metric)).map Prod.snd

/-- Modelled from the spec: the per-role decision of the Query Authorizer
(§4.4), which is not in `config.go`: a role without an ACL in the store
contributes no permission. -/
def roleDecision (fullMatch : String → String → Bool) (store : List (OidcRole × ACL))
    (metric : String) (role : OidcRole) : AuthorizationDecision :=
  match mapGet store role with
  | none => deny
  | some acl =>
    match aclConstraint fullMatch acl metric with
    | some constraint => ⟨true, some constraint, some role⟩
    | none => deny

/-- Modelled from the spec: `AggregateDecision` (§4.5), which is not in
`config.go`: allow if at least one role's decision allows, the
first-granting role in iteration order gives the constraint. -/
def AggregateDecision : List AuthorizationDecision → AuthorizationDecision
  | [] => deny
  | d :: ds => if d.allowed then d else AggregateDecision ds

/-- Modelled from the spec: `Authorize(roles, metric)` (§4.4), which is not
in `config.go`.  The role set is given in its iteration order. -/
def Authorize (fullMatch : String → String → Bool) (store : List (OidcRole × ACL))
    (roles : List OidcRole) (metric : String) : AuthorizationDecision :=
  AggregateDecision (roles.map (roleDecision fullMatch store metric))

/-! ## Sample runs -/

/-- An environment that sets every variable; `secret` is `COOKIE_SECRET`. -/
def sampleEnv (secret : List Byte) (c : Config) : Config × Option GoError :=
  ({ c with
      Listen := ":8080", URL := "http://localhost:8080",
      PrometheusURL := "http://localhost:9090", CookieSecret := secret,
      AuthProvider := "oidc", OidcIssuer := "https://issuer.example.org",
      OidcClientID := "gateway", OidcClientSecret := "hunter2",
      OidcRolesClaim := "roles", ACLFile := "prometheus-oidc.yml" }, none)

/-- A world around `sampleEnv`: `rand.Read` delivers 64 bytes of value 7, and
the compiler is the one of the specification. -/
def sampleWorld (secret : List Byte) (openResult : Except GoError String)
    (decoded : Except GoError (GoMap String (GoMap String String)))
    (compiles : String → Bool) : World String :=
  { envProcess := sampleEnv secret
    randBytes := List.replicate 64 7
    randErr := none
    osOpen := fun _ => openResult
    yamlDecode := fun _ => decoded
    ParseAndStoreACL := specParseAndStoreACL compiles }

/-- The policy of the concrete scenario of the specification, and a role
that declares nothing. -/
def scenarioDocument : Document String :=
  [("viewer", [("cpu_usage", "namespace=prod")]), ("admin", [("~.*", "")]), ("guest", [])]

/-- A load of `scenarioDocument` without `COOKIE_SECRET`. -/
def scenarioWorld : World String :=
  sampleWorld [] (Except.ok "prometheus-oidc.yml")
    (Except.ok (decodeDocument scenarioDocument)) (fun _ => true)

/-- A load of `scenarioDocument` with a `COOKIE_SECRET` of 32 bytes. -/
def providedSecretWorld : World String :=
  sampleWorld (List.replicate 32 9) (Except.ok "prometheus-oidc.yml")
    (Except.ok (decodeDocument scenarioDocument)) (fun _ => true)

/-- The ACLs that a load of `scenarioDocument` builds. -/
def scenarioMap : List (OidcRole × ACL) :=
  [("viewer", ⟨[("cpu_usage", "namespace=prod")], []⟩), ("admin", ⟨[], [(".*", "")]⟩),
    ("guest", ⟨[], []⟩)]

/-- The `Config` that `Parse` returns in `scenarioWorld`. -/
def scenarioConfig : Config :=
  { (sampleEnv [] Config.zero).1 with
    CookieSecret := List.replicate 64 7, OIDCMap := scenarioMap }

/-- The `Config` that `Parse` returns in `providedSecretWorld`. -/
def providedSecretConfig : Config :=
  { (sampleEnv (List.replicate 32 9) Config.zero).1 with OIDCMap := scenarioMap }

/-- A load with a `COOKIE_SECRET` of 16 bytes. -/
def shortSecretWorld : World String :=
  sampleWorld (List.replicate 16 9) (Except.ok "prometheus-oidc.yml")
    (Except.ok (decodeDocument scenarioDocument)) (fun _ => true)

/-- A policy whose second entry under `viewer` is a pattern that does not
compile. -/
def brokenDocument : Document String :=
  [("viewer", [("cpu_usage", "a"), ("~(", "b"), ("mem_usage", "c")]), ("admin", [("~.*", "")])]

/-- A load of `brokenDocument`; the pattern `(` does not compile. -/
def brokenWorld : World String :=
  sampleWorld [] (Except.ok "prometheus-oidc.yml")
    (Except.ok (decodeDocument brokenDocument)) (fun p => decide (p ≠ "("))

/-- The error of `os.Open` on a missing file. -/
def noSuchFile : GoError :=
  GoError.raised "os" "open prometheus-oidc.yml: no such file or directory"

/-- A load whose policy file cannot be opened. -/
def unreadableWorld : World String :=
  sampleWorld [] (Except.error noSuchFile)
    (Except.ok (decodeDocument scenarioDocument)) (fun _ => true)

/-- The error of the decoder on a document of another shape. -/
def wrongShape : GoError :=
  GoError.raised "yaml" "yaml: unmarshal errors: cannot unmarshal !!seq into map"

/-- A load whose policy file opens and does not decode. -/
def malformedWorld : World String :=
  sampleWorld [] (Except.ok "prometheus-oidc.yml") (Except.error wrongShape) (fun _ => true)

/-- A policy that declares `cpu_usage` twice under `viewer`. -/
def duplicateDocument : Document String :=
  [("viewer", [("cpu_usage", "namespace=prod"), ("cpu_usage", "namespace=dev")])]

/-- A load of `duplicateDocument`. -/
def duplicateWorld : World String :=
  sampleWorld [] (Except.ok "prometheus-oidc.yml")
    (Except.ok (decodeDocument duplicateDocument)) (fun _ => true)

/-- A policy with two patterns under `viewer`. -/
def orderedDocument : Document String :=
  [("viewer", [("~node_.*", "first"), ("~.*_total", "second")])]

/-- The Go map of `orderedDocument`, visited in the other order. -/
def orderedMapSwapped : GoMap String (GoMap String String) :=
  ⟨[("viewer", ⟨[("~.*_total", "second"), ("~node_.*", "first")], by decide⟩)], by decide⟩

/-- A load of `orderedDocument` in which the loop visits the entries as
`decodeDocument` lists them. -/
def orderedWorld : World String :=
  sampleWorld [] (Except.ok "prometheus-oidc.yml")
    (Except.ok (decodeDocument orderedDocument)) (fun _ => true)

/-- A load of `orderedDocument` in which the loop visits the entries in the
other order. -/
def orderedWorldSwapped : World String :=
  sampleWorld [] (Except.ok "prometheus-oidc.yml") (Except.ok orderedMapSwapped) (fun _ => true)

/-! ## Association lists -/

theorem mapGet_eq_none {K V : Type} [DecidableEq K] (m : List (K × V)) (k : K) :
    mapGet m k = none ↔ k ∉ mapKeys m := by
  induction m with
  | nil => simp [mapGet, mapKeys]
  | cons p rest ih =>
    obtain ⟨k1, v⟩ := p
    by_cases h : k1 = k
    · simp [mapGet, mapKeys, h]
    · have h2 : ¬ k = k1 := fun e => h e.symm
      simpa [mapGet, mapKeys, h, h2] using ih

theorem mapGet_isSome {K V : Type} [DecidableEq K] (m : List (K × V)) (k : K) :
    (mapGet m k).isSome = true ↔ k ∈ mapKeys m := by
  rw [← not_iff_not, ← mapGet_eq_none]
  cases mapGet m k <;> simp

theorem mapSet_fresh {K V : Type} [DecidableEq K] (m : List (K × V)) (k : K) (v : V)
    (h : k ∉ mapKeys m) : mapSet m k v = m ++ [(k, v)] := by
  induction m with
  | nil => simp [mapSet]
  | cons p rest ih =>
    obtain ⟨k1, v1⟩ := p
    have h1 : ¬ k1 = k := fun e => h (by simp [mapKeys, e])
    have h2 : k ∉ mapKeys rest := fun e => h (by
      simp only [mapKeys, List.map_cons, List.mem_cons]; exact Or.inr e)
    simp [mapSet, h1, ih h2]

theorem mapSet_last {K V : Type} [DecidableEq K] (m : List (K × V)) (k : K) (v v2 : V)
    (h : k ∉ mapKeys m) : mapSet (m ++ [(k, v)]) k v2 = m ++ [(k, v2)] := by
  induction m with
  | nil => simp [mapSet]
  | cons p rest ih =>
    obtain ⟨k1, v1⟩ := p
    have h1 : ¬ k1 = k := fun e => h (by simp [mapKeys, e])
    have h2 : k ∉ mapKeys rest := fun e => h (by
      simp only [mapKeys, List.map_cons, List.mem_cons]; exact Or.inr e)
    simp [mapSet, h1, ih h2]

theorem mapGet_last {K V : Type} [DecidableEq K] (m : List (K × V)) (k : K) (v : V)
    (h : k ∉ mapKeys m) : mapGet (m ++ [(k, v)]) k = some v := by
  induction m with
  | nil => simp [mapGet]
  | cons p rest ih =>
    obtain ⟨k1, v1⟩ := p
    have h1 : ¬ k1 = k := fun e => h (by simp [mapKeys, e])
    have h2 : k ∉ mapKeys rest := fun e => h (by
      simp only [mapKeys, List.map_cons, List.mem_cons]; exact Or.inr e)
    simp [mapGet, h1, ih h2]

theorem mapGet_of_mem {K V : Type} [DecidableEq K] (m : List (K × V)) (k : K) (v : V)
    (hn : (mapKeys m).Nodup) (h : (k, v) ∈ m) : mapGet m k = some v := by
  induction m with
  | nil => simp at h
  | cons p rest ih =>
    obtain ⟨k1, v1⟩ := p
    simp only [mapKeys, List.map_cons, List.nodup_cons] at hn
    rcases List.mem_cons.1 h with h1 | h1
    · cases h1
      simp [mapGet]
    · have hk : ¬ k1 = k := by
        intro e
        apply hn.1
        rw [e]
        exact List.mem_map.2 ⟨(k, v), h1, rfl⟩
      simp only [mapGet, if_neg hk]
      exact ih hn.2 h1

/-! ## The two loops -/

theorem loadEntries_ok {Q : Type} (store : ACL → String → Q → ACL × Option GoError)
    (role : OidcRole) (entries : List (String × Q)) :
    ∀ acl, (loadEntries store role acl entries).2.2 = none →
      (loadEntries store role acl entries).1 = okCalls role entries ∧
      (loadEntries store role acl entries).2.1 = applyEach store acl entries := by
  induction entries with
  | nil => intro acl _; simp [loadEntries, okCalls, applyEach]
  | cons p rest ih =>
    obtain ⟨k, q⟩ := p
    intro acl h
    cases hs : (store acl k q).2 with
    | some e => simp [loadEntries, hs] at h
    | none =>
      simp only [loadEntries, hs] at h ⊢
      have := ih _ h
      simp [okCalls, applyEach, this.1, this.2]

theorem loadEntries_err {Q : Type} (store : ACL → String → Q → ACL × Option GoError)
    (role : OidcRole) (entries : List (String × Q)) (e : GoError) :
    ∀ acl, (loadEntries store role acl entries).2.2 = some e →
      ∃ pre k q post, entries = pre ++ (k, q) :: post ∧
        (loadEntries store role acl entries).1 =
          okCalls role pre ++ [Event.parseAndStoreACL role k q (some e)] ∧
        (store (applyEach store acl pre) k q).2 = some e := by
  induction entries with
  | nil => intro acl h; simp [loadEntries] at h
  | cons p rest ih =>
    obtain ⟨k, q⟩ := p
    intro acl h
    cases hs : (store acl k q).2 with
    | some e1 =>
      simp only [loadEntries, hs, Option.some.injEq] at h ⊢
      subst h
      exact ⟨[], k, q, rest, by simp, by simp [okCalls], by simpa [applyEach] using hs⟩
    | none =>
      simp only [loadEntries, hs] at h ⊢
      obtain ⟨pre, k2, q2, post, h1, h2, h3⟩ := ih _ h
      refine ⟨(k, q) :: pre, k2, q2, post, by simp [h1], by simp [okCalls, h2], ?_⟩
      simpa [applyEach] using h3

theorem storeCalls_append {Q : Type} (a b : List (Event Q)) :
    storeCalls (a ++ b) = storeCalls a ++ storeCalls b := by
  induction a with
  | nil => simp [storeCalls]
  | cons ev rest ih => cases ev <;> simp [storeCalls, ih]

theorem storeCalls_okCalls {Q : Type} (role : OidcRole) (entries : List (String × Q)) :
    storeCalls (okCalls role entries) = entries.map (fun e => (role, e.1, e.2)) := by
  induction entries with
  | nil => simp [okCalls, storeCalls]
  | cons p rest ih =>
    simp only [okCalls, List.map_cons, storeCalls, List.cons.injEq, true_and]
    exact ih

theorem storeCalls_okRoleCalls {Q : Type} (m : List (String × GoMap String Q)) :
    storeCalls (okRoleCalls m) = entriesOf m := by
  induction m with
  | nil => simp [okRoleCalls, entriesOf, storeCalls]
  | cons ra rest ih =>
    simp only [okRoleCalls, entriesOf, List.flatMap_cons, storeCalls_append,
      storeCalls_okCalls] at ih ⊢
    rw [ih]

theorem loadEntries_calls {Q : Type} (store : ACL → String → Q → ACL × Option GoError)
    (role : OidcRole) (entries : List (String × Q)) (acl : ACL) :
    ∃ tail, entries.map (fun e => (role, e.1, e.2)) =
      storeCalls (loadEntries store role acl entries).1 ++ tail := by
  cases h : (loadEntries store role acl entries).2.2 with
  | none =>
    refine ⟨[], ?_⟩
    rw [(loadEntries_ok store role entries acl h).1, storeCalls_okCalls]
    simp
  | some e =>
    obtain ⟨pre, k, q, post, h1, h2, _⟩ := loadEntries_err store role entries e acl h
    refine ⟨post.map (fun e => (role, e.1, e.2)), ?_⟩
    rw [h2, storeCalls_append, storeCalls_okCalls, h1]
    simp [storeCalls]

/-- One turn of the outer loop for a role that has no ACL yet. -/
theorem loadRoles_cons_fresh {Q : Type} (store : ACL → String → Q → ACL × Option GoError)
    (om : List (OidcRole × ACL)) (role : String) (aclLoad : GoMap String Q)
    (rest : List (String × GoMap String Q)) (h : role ∉ mapKeys om) :
    loadRoles store om ((role, aclLoad) :: rest) =
      match (loadEntries store role emptyACL aclLoad.entries).2.2 with
      | some err =>
        ((loadEntries store role emptyACL aclLoad.entries).1,
          om ++ [(role, (loadEntries store role emptyACL aclLoad.entries).2.1)], some err)
      | none =>
        ((loadEntries store role emptyACL aclLoad.entries).1 ++
            (loadRoles store
              (om ++ [(role, (loadEntries store role emptyACL aclLoad.entries).2.1)]) rest).1,
          (loadRoles store
              (om ++ [(role, (loadEntries store role emptyACL aclLoad.entries).2.1)]) rest).2.1,
          (loadRoles store
              (om ++ [(role, (loadEntries store role emptyACL aclLoad.entries).2.1)]) rest).2.2) := by
  have hg : mapGet om role = none := (mapGet_eq_none om role).2 h
  simp only [loadRoles, hg, mapSet_fresh om role emptyACL h, mapGet_last om role emptyACL h,
    Option.getD_some, mapSet_last om role emptyACL _ h]

theorem loadRoles_ok {Q : Type} (store : ACL → String → Q → ACL × Option GoError)
    (rest : List (String × GoMap String Q)) :
    ∀ om, (mapKeys rest).Nodup → (∀ r ∈ mapKeys rest, r ∉ mapKeys om) →
      (loadRoles store om rest).2.2 = none →
      (loadRoles store om rest).1 = okRoleCalls rest ∧
      (loadRoles store om rest).2.1 = om ++ builtMap store rest := by
  induction rest with
  | nil => intro om _ _ _; simp [loadRoles, okRoleCalls, builtMap]
  | cons ra rest ih =>
    obtain ⟨role, aclLoad⟩ := ra
    intro om hn hf h
    simp only [mapKeys, List.map_cons, List.nodup_cons] at hn
    have hfresh : role ∉ mapKeys om := hf role (by simp [mapKeys])
    rw [loadRoles_cons_fresh store om role aclLoad rest hfresh] at h ⊢
    cases he : (loadEntries store role emptyACL aclLoad.entries).2.2 with
    | some e => simp [he] at h
    | none =>
      simp only [he] at h ⊢
      obtain ⟨h1, h2⟩ := loadEntries_ok store role aclLoad.entries emptyACL he
      have hf2 : ∀ r ∈ mapKeys rest, r ∉ mapKeys
          (om ++ [(role, (loadEntries store role emptyACL aclLoad.entries).2.1)]) := by
        intro r hr hmem
        simp only [mapKeys, List.map_append, List.map_cons, List.map_nil, List.mem_append,
          List.mem_singleton] at hmem
        rcases hmem with hm | hm
        · exact hf r (by simp only [mapKeys, List.map_cons, List.mem_cons]; exact Or.inr hr) hm
        · exact hn.1 (hm ▸ hr)
      obtain ⟨h3, h4⟩ := ih _ hn.2 hf2 h
      refine ⟨?_, ?_⟩
      · rw [h3, h1]; simp [okRoleCalls]
      · rw [h4, h2]; simp [builtMap]

theorem loadRoles_err {Q : Type} (store : ACL → String → Q → ACL × Option GoError)
    (rest : List (String × GoMap String Q)) (e : GoError) :
    ∀ om, (loadRoles store om rest).2.2 = some e →
      ∃ before role k q,
        (loadRoles store om rest).1 = before ++ [Event.parseAndStoreACL role k q (some e)] ∧
        ∀ ev ∈ before, ev.failure = none ∧ ev.isStore = true := by
  induction rest with
  | nil => intro om h; simp [loadRoles] at h
  | cons ra rest ih =>
    obtain ⟨role, aclLoad⟩ := ra
    intro om h
    simp only [loadRoles] at h ⊢
    generalize hom : (match mapGet om role with
      | some _ => om
      | none => mapSet om role emptyACL) = om1 at h ⊢
    generalize (mapGet om1 role).getD emptyACL = acl0 at h ⊢
    cases he : (loadEntries store role acl0 aclLoad.entries).2.2 with
    | some e1 =>
      simp only [he, Option.some.injEq] at h ⊢
      subst h
      obtain ⟨pre, k, q, post, _, h2, _⟩ := loadEntries_err store role aclLoad.entries e1 acl0 he
      refine ⟨okCalls role pre, role, k, q, h2, ?_⟩
      intro ev hev
      simp only [okCalls, List.mem_map] at hev
      obtain ⟨x, _, rfl⟩ := hev
      simp [Event.failure, Event.isStore]
    | none =>
      simp only [he] at h ⊢
      obtain ⟨before, r2, k, q, h1, h2⟩ := ih _ h
      refine ⟨(loadEntries store role acl0 aclLoad.entries).1 ++ before, r2, k, q, ?_, ?_⟩
      · rw [h1]; simp
      · intro ev hev
        rcases List.mem_append.1 hev with hm | hm
        · rw [(loadEntries_ok store role aclLoad.entries acl0 he).1] at hm
          simp only [okCalls, List.mem_map] at hm
          obtain ⟨x, _, rfl⟩ := hm
          simp [Event.failure, Event.isStore]
        · exact h2 ev hm

theorem loadRoles_calls {Q : Type} (store : ACL → String → Q → ACL × Option GoError)
    (rest : List (String × GoMap String Q)) :
    ∀ om, ∃ tail, entriesOf rest = storeCalls (loadRoles store om rest).1 ++ tail := by
  induction rest with
  | nil => intro om; exact ⟨[], by simp [entriesOf, loadRoles, storeCalls]⟩
  | cons ra rest ih =>
    obtain ⟨role, aclLoad⟩ := ra
    intro om
    simp only [loadRoles]
    generalize hom : (match mapGet om role with
      | some _ => om
      | none => mapSet om role emptyACL) = om1
    generalize (mapGet om1 role).getD emptyACL = acl0
    obtain ⟨t1, ht1⟩ := loadEntries_calls store role aclLoad.entries acl0
    cases he : (loadEntries store role acl0 aclLoad.entries).2.2 with
    | some e1 =>
      refine ⟨t1 ++ entriesOf rest, ?_⟩
      simp only [entriesOf, List.flatMap_cons] at ht1 ⊢
      rw [ht1]; simp
    | none =>
      obtain ⟨t2, ht2⟩ := ih (mapSet om1 role (loadEntries store role acl0 aclLoad.entries).2.1)
      refine ⟨t2, ?_⟩
      simp only [storeCalls_append]
      rw [(loadEntries_ok store role aclLoad.entries acl0 he).1, storeCalls_okCalls,
        List.append_assoc, ← ht2]
      simp [entriesOf]

/-! ## The paths through `Parse` -/

theorem secretStep_cases {Q : Type} (w : World Q) (c : Config) :
    ((c.CookieSecret.length = 64 ∨ c.CookieSecret.length = 32) ∧
      secretStep w c = ([Event.logInfo "cookie secret provided via env"], Except.ok c)) ∨
    (c.CookieSecret.length = 0 ∧ ∃ e, w.randErr = some e ∧
      secretStep w c =
        ([Event.logWarn "no cookie secret provided, generating a random one",
          Event.randRead 64 (some e)],
         Except.error (GoError.errorf ("unable to generate secret key: " ++ e.Error)))) ∨
    (c.CookieSecret.length = 0 ∧ w.randErr = none ∧
      secretStep w c =
        ([Event.logWarn "no cookie secret provided, generating a random one",
          Event.randRead 64 none],
         Except.ok { c with CookieSecret := overwrite (List.replicate 64 0) w.randBytes })) ∨
    (c.CookieSecret.length ≠ 64 ∧ c.CookieSecret.length ≠ 32 ∧ c.CookieSecret.length ≠ 0 ∧
      secretStep w c =
        ([], Except.error (GoError.errorf
          ("unable to use provided secret key with " ++ toString c.CookieSecret.length ++
            " bytes, use 32 or 64")))) := by
  by_cases h64 : c.CookieSecret.length = 64
  · left; exact ⟨Or.inl h64, by simp [secretStep, h64]⟩
  · by_cases h32 : c.CookieSecret.length = 32
    · left; exact ⟨Or.inr h32, by simp [secretStep, h32]⟩
    · by_cases h0 : c.CookieSecret.length = 0
      · cases hr : w.randErr with
        | some e => right; left; exact ⟨h0, e, rfl, by simp [secretStep, h0, hr]⟩
        | none => right; right; left; exact ⟨h0, rfl, by simp [secretStep, h0, hr]⟩
      · right; right; right; exact ⟨h64, h32, h0, by simp [secretStep, h64, h32, h0]⟩

theorem Parse_cases {Q : Type} (w : World Q) :
    (∃ e, (w.envProcess Config.zero).2 = some e ∧
      Parse w = ⟨none, some e, [Event.envProcess (some e)]⟩) ∨
    ((w.envProcess Config.zero).2 = none ∧ ∃ t1,
      ((∃ e, secretStep w (w.envProcess Config.zero).1 = (t1, Except.error e) ∧
          Parse w = ⟨none, some e, Event.envProcess none :: t1⟩) ∨
       (∃ c1, secretStep w (w.envProcess Config.zero).1 = (t1, Except.ok c1) ∧
        ((∃ e, w.osOpen c1.ACLFile = Except.error e ∧
            Parse w = ⟨none, some (GoError.errorf ("unable to open config: " ++ e.Error)),
              Event.envProcess none :: t1 ++ [Event.osOpen c1.ACLFile (some e)]⟩) ∨
         (∃ fp, w.osOpen c1.ACLFile = Except.ok fp ∧
          ((∃ e, w.yamlDecode fp = Except.error e ∧
              Parse w = ⟨none, some (GoError.errorf ("unable to load config: " ++ e.Error)),
                Event.envProcess none :: t1 ++
                  [Event.osOpen c1.ACLFile none, Event.yamlDecode (some e)]⟩) ∨
           (∃ m, w.yamlDecode fp = Except.ok m ∧
            ((∃ e, (loadRoles w.ParseAndStoreACL [] m.entries).2.2 = some e ∧
                Parse w = ⟨none, some e, Event.envProcess none :: t1 ++
                  [Event.osOpen c1.ACLFile none, Event.yamlDecode none] ++
                  (loadRoles w.ParseAndStoreACL [] m.entries).1⟩) ∨
             ((loadRoles w.ParseAndStoreACL [] m.entries).2.2 = none ∧
                Parse w = ⟨some { c1 with
                    OIDCMap := (loadRoles w.ParseAndStoreACL [] m.entries).2.1 }, none,
                  Event.envProcess none :: t1 ++
                  [Event.osOpen c1.ACLFile none, Event.yamlDecode none] ++
                  (loadRoles w.ParseAndStoreACL [] m.entries).1⟩))))))))) := by
  cases h0 : (w.envProcess Config.zero).2 with
  | some e => left; exact ⟨e, rfl, by simp [Parse, h0]⟩
  | none =>
    right
    refine ⟨rfl, (secretStep w (w.envProcess Config.zero).1).1, ?_⟩
    rcases hs : secretStep w (w.envProcess Config.zero).1 with ⟨t1, r1⟩
    cases r1 with
    | error e => left; exact ⟨e, rfl, by simp [Parse, h0, hs]⟩
    | ok c1 =>
      right
      refine ⟨c1, rfl, ?_⟩
      cases ho : w.osOpen c1.ACLFile with
      | error e => left; exact ⟨e, rfl, by simp [Parse, h0, hs, ho]⟩
      | ok fp =>
        right
        refine ⟨fp, rfl, ?_⟩
        cases hd : w.yamlDecode fp with
        | error e => left; exact ⟨e, rfl, by simp [Parse, h0, hs, ho, hd]⟩
        | ok m =>
          right
          refine ⟨m, rfl, ?_⟩
          cases hl : (loadRoles w.ParseAndStoreACL [] m.entries).2.2 with
          | some e => left; exact ⟨e, rfl, by simp [Parse, h0, hs, ho, hd, hl]⟩
          | none => right; exact ⟨rfl, by simp [Parse, h0, hs, ho, hd, hl]⟩

/-! ## Failing loads -/

theorem secretStep_events {Q : Type} (w : World Q) (c : Config) :
    ∀ ev ∈ (secretStep w c).1, ev.isStore = false ∧ ev.isOpen = false := by
  intro ev hev
  rcases secretStep_cases w c with ⟨_, h⟩ | ⟨_, e, _, h⟩ | ⟨_, _, h⟩ | ⟨_, _, _, h⟩ <;>
    rw [h] at hev <;> simp at hev
  · subst hev; simp [Event.isStore, Event.isOpen]
  · rcases hev with rfl | rfl <;> simp [Event.isStore, Event.isOpen]
  · rcases hev with rfl | rfl <;> simp [Event.isStore, Event.isOpen]

theorem secretStep_ok_events {Q : Type} (w : World Q) (c c1 : Config) (t1 : List (Event Q))
    (hs : secretStep w c = (t1, Except.ok c1)) : ∀ ev ∈ t1, ev.failure = none := by
  intro ev hev
  rcases secretStep_cases w c with ⟨_, h⟩ | ⟨_, e, _, h⟩ | ⟨_, _, h⟩ | ⟨_, _, _, h⟩ <;>
    rw [h] at hs <;> simp at hs
  · rw [← hs.1] at hev; simp at hev; subst hev; simp [Event.failure]
  · rw [← hs.1] at hev; simp at hev
    rcases hev with rfl | rfl <;> simp [Event.failure]

/-- C1: a load is all-or-nothing.  If a call of `ParseAndStoreACL` made by
`Parse` returned the error `e`, then `Parse` returns a nil `Config` together
with `e` itself, that call is the last thing `Parse` did, and no call before it
had failed. -/
theorem parse_fail_closed {Q : Type} (w : World Q) (role : OidcRole) (metricName : String)
    (query : Q) (e : GoError)
    (h : Event.parseAndStoreACL role metricName query (some e) ∈ (Parse w).trace) :
    (Parse w).c = none ∧ (Parse w).err = some e ∧
      ∃ before, (Parse w).trace =
          before ++ [Event.parseAndStoreACL role metricName query (some e)] ∧
        ∀ ev ∈ before, ev.failure = none := by
  rcases Parse_cases w with ⟨e0, _, hp⟩ | ⟨_, t1, ⟨e1, hs, hp⟩ | ⟨c1, hs, ⟨e2, _, hp⟩ |
    ⟨fp, _, ⟨e3, _, hp⟩ | ⟨m, _, ⟨e4, hl, hp⟩ | ⟨hl, hp⟩⟩⟩⟩⟩
  · rw [hp] at h; simp at h
  · rw [hp] at h
    have hev := secretStep_events w (w.envProcess Config.zero).1 _ (by
      rw [hs]; simpa using h)
    simp [Event.isStore] at hev
  · rw [hp] at h
    have hev := secretStep_events w (w.envProcess Config.zero).1 _ (by
      rw [hs]; simpa using h)
    simp [Event.isStore] at hev
  · rw [hp] at h
    have hev := secretStep_events w (w.envProcess Config.zero).1 _ (by
      rw [hs]; simpa using h)
    simp [Event.isStore] at hev
  · obtain ⟨before, r2, k, q, ht, hb⟩ := loadRoles_err w.ParseAndStoreACL m.entries e4 [] hl
    have hfront : ∀ ev ∈ Event.envProcess none :: t1 ++
        [Event.osOpen c1.ACLFile none, Event.yamlDecode none] ++ before,
        ev.failure = none := by
      intro ev hev
      simp only [List.cons_append, List.mem_cons, List.mem_append, List.mem_singleton,
        List.not_mem_nil, or_false] at hev
      rcases hev with rfl | (hev | rfl | rfl) | hev
      · rfl
      · exact secretStep_ok_events w _ c1 t1 hs ev hev
      · rfl
      · rfl
      · exact (hb ev hev).1
    rw [hp, ht] at h
    simp only [← List.append_assoc] at h
    rcases List.mem_append.1 h with hm | hm
    · have := hfront _ hm
      simp [Event.failure] at this
    · simp only [List.mem_singleton, Event.parseAndStoreACL.injEq, Option.some.injEq] at hm
      obtain ⟨rfl, rfl, rfl, rfl⟩ := hm
      refine ⟨by rw [hp], by rw [hp], _, ?_, hfront⟩
      rw [hp, ht]
      simp
  · obtain ⟨ht, _⟩ := loadRoles_ok w.ParseAndStoreACL m.entries [] m.nodup
      (by intro r _; simp [mapKeys]) hl
    rw [hp, ht] at h
    simp only [List.cons_append, List.mem_cons, List.mem_append, List.mem_singleton,
      List.not_mem_nil, or_false, reduceCtorEq, false_or] at h
    rcases h with h | h
    · have := secretStep_ok_events w _ c1 t1 hs _ h
      simp [Event.failure] at this
    · simp only [okRoleCalls, okCalls, List.mem_flatMap, List.mem_map] at h
      obtain ⟨_, _, _, _, h⟩ := h
      simp at h

/-- A load of `brokenDocument`: the second call fails with `InvalidPattern`,
`Parse` returns that error and no `Config`. -/
theorem parse_fail_closed_witness :
    Event.parseAndStoreACL "viewer" "~(" "b" (some (GoError.raised "InvalidPattern" "~(")) ∈
        (Parse brokenWorld).trace ∧
      (Parse brokenWorld).c = none ∧
      (Parse brokenWorld).err = some (GoError.raised "InvalidPattern" "~(") :=
  ⟨by decide,
    (parse_fail_closed brokenWorld "viewer" "~(" "b"
      (GoError.raised "InvalidPattern" "~(") (by decide)).1,
    (parse_fail_closed brokenWorld "viewer" "~(" "b"
      (GoError.raised "InvalidPattern" "~(") (by decide)).2.1⟩

/-! ## Successful loads -/

theorem decodedDocument_eq {Q : Type} (w : World Q) (t1 : List (Event Q)) (c1 : Config)
    (fp : String) (m : GoMap String (GoMap String Q))
    (h0 : (w.envProcess Config.zero).2 = none)
    (hs : secretStep w (w.envProcess Config.zero).1 = (t1, Except.ok c1))
    (ho : w.osOpen c1.ACLFile = Except.ok fp) (hd : w.yamlDecode fp = Except.ok m) :
    decodedDocument w = some m := by
  simp [decodedDocument, h0, hs, ho, hd]

theorem Parse_success {Q : Type} (w : World Q) (c : Config) (h : (Parse w).c = some c) :
    ∃ t1 c1 fp m, (w.envProcess Config.zero).2 = none ∧
      secretStep w (w.envProcess Config.zero).1 = (t1, Except.ok c1) ∧
      w.osOpen c1.ACLFile = Except.ok fp ∧ w.yamlDecode fp = Except.ok m ∧
      decodedDocument w = some m ∧
      c = { c1 with OIDCMap := builtMap w.ParseAndStoreACL m.entries } ∧
      (Parse w).err = none ∧
      (Parse w).trace = Event.envProcess none :: t1 ++
        [Event.osOpen c1.ACLFile none, Event.yamlDecode none] ++ okRoleCalls m.entries := by
  rcases Parse_cases w with ⟨e0, _, hp⟩ | ⟨h0, t1, ⟨e1, hs, hp⟩ | ⟨c1, hs, ⟨e2, _, hp⟩ |
    ⟨fp, ho, ⟨e3, _, hp⟩ | ⟨m, hd, ⟨e4, hl, hp⟩ | ⟨hl, hp⟩⟩⟩⟩⟩
  · rw [hp] at h; simp at h
  · rw [hp] at h; simp at h
  · rw [hp] at h; simp at h
  · rw [hp] at h; simp at h
  · rw [hp] at h; simp at h
  · obtain ⟨ht, hm⟩ := loadRoles_ok w.ParseAndStoreACL m.entries [] m.nodup
      (by intro r _; simp [mapKeys]) hl
    rw [hp] at h
    simp only [Option.some.injEq] at h
    refine ⟨t1, c1, fp, m, h0, hs, ho, hd, decodedDocument_eq w t1 c1 fp m h0 hs ho hd, ?_, ?_, ?_⟩
    · rw [← h, hm]; simp
    · rw [hp]
    · rw [hp, ht]

theorem storeCalls_of_no_store {Q : Type} (t : List (Event Q))
    (h : ∀ ev ∈ t, ev.isStore = false) : storeCalls t = [] := by
  induction t with
  | nil => rfl
  | cons ev rest ih =>
    have h1 := h ev (List.mem_cons_self _ _)
    have h2 := ih (fun x hx => h x (List.mem_cons_of_mem _ hx))
    cases ev <;> simp [storeCalls, Event.isStore, h2] at h1 ⊢

theorem Parse_success_calls {Q : Type} (w : World Q) (c : Config)
    (m : GoMap String (GoMap String Q)) (h : (Parse w).c = some c)
    (hd : decodedDocument w = some m) :
    storeCalls (Parse w).trace = entriesOf m.entries ∧
      c.OIDCMap = builtMap w.ParseAndStoreACL m.entries := by
  obtain ⟨t1, c1, fp, m2, _, hs, _, _, hd2, hc, _, ht⟩ := Parse_success w c h
  rw [hd] at hd2
  cases hd2
  refine ⟨?_, by rw [hc]⟩
  have h1 : storeCalls t1 = [] := storeCalls_of_no_store t1 (fun ev hev =>
    (secretStep_events w (w.envProcess Config.zero).1 ev (by rw [hs]; exact hev)).1)
  have h2 : storeCalls [Event.envProcess (none : Option GoError)] =
      ([] : List (OidcRole × String × Q)) := rfl
  have h3 : storeCalls [Event.osOpen c1.ACLFile none, Event.yamlDecode none] =
      ([] : List (OidcRole × String × Q)) := rfl
  have h4 : Event.envProcess none :: t1 ++
      [Event.osOpen c1.ACLFile none, Event.yamlDecode none] ++ okRoleCalls m.entries =
      [Event.envProcess none] ++ t1 ++
      [Event.osOpen c1.ACLFile none, Event.yamlDecode none] ++ okRoleCalls m.entries := rfl
  rw [ht, h4, storeCalls_append, storeCalls_append, storeCalls_append, h1, h2, h3,
    storeCalls_okRoleCalls]
  rfl

theorem overwrite_length (buf src : List Byte) : (overwrite buf src).length = buf.length := by
  simp only [overwrite, List.length_append, List.length_take, List.length_drop]
  omega

theorem open_ne_load (a b : String) :
    "unable to open config: " ++ a ≠ "unable to load config: " ++ b := by
  intro h
  have h2 := congrArg (fun s => s.data.take 11) h
  simp only [String.data_append] at h2
  rw [List.take_append_of_le_length (by decide),
    List.take_append_of_le_length (by decide)] at h2
  revert h2
  decide

theorem generate_ne_use (a b : String) :
    "unable to generate secret key: " ++ a ≠ "unable to use provided secret key with " ++ b := by
  intro h
  have h2 := congrArg (fun s => s.data.take 11) h
  simp only [String.data_append] at h2
  rw [List.take_append_of_le_length (by decide),
    List.take_append_of_le_length (by decide)] at h2
  revert h2
  decide

/-- C6: the two failures of the reader stage.  After the environment and
the cookie secret are dealt with, if `os.Open(c.ACLFile)` fails with `e`,
`Parse` returns a nil `Config` and the error "unable to open config: " followed
by the text of `e`; if the file opens and the decoder fails with `e`, `Parse`
returns a nil `Config` and the error "unable to load config: " followed by the
text of `e`.  In both cases `ParseAndStoreACL` is never called, and the two
errors are never the same. -/
theorem reader_failures {Q : Type} (w : World Q) (t1 : List (Event Q)) (c1 : Config)
    (h0 : (w.envProcess Config.zero).2 = none)
    (hs : secretStep w (w.envProcess Config.zero).1 = (t1, Except.ok c1)) :
    (∀ e, w.osOpen c1.ACLFile = Except.error e →
      (Parse w).c = none ∧
      (Parse w).err = some (GoError.errorf ("unable to open config: " ++ e.Error)) ∧
      ∀ ev ∈ (Parse w).trace, ev.isStore = false) ∧
    (∀ fp e, w.osOpen c1.ACLFile = Except.ok fp → w.yamlDecode fp = Except.error e →
      (Parse w).c = none ∧
      (Parse w).err = some (GoError.errorf ("unable to load config: " ++ e.Error)) ∧
      ∀ ev ∈ (Parse w).trace, ev.isStore = false) ∧
    (∀ e1 e2 : GoError, GoError.errorf ("unable to open config: " ++ e1.Error) ≠
      GoError.errorf ("unable to load config: " ++ e2.Error)) := by
  have hev : ∀ ev ∈ t1, ev.isStore = false := fun ev hev =>
    (secretStep_events w (w.envProcess Config.zero).1 ev (by rw [hs]; exact hev)).1
  refine ⟨?_, ?_, ?_⟩
  · intro e ho
    have hp : Parse w = ⟨none, some (GoError.errorf ("unable to open config: " ++ e.Error)),
        Event.envProcess none :: t1 ++ [Event.osOpen c1.ACLFile (some e)]⟩ := by
      simp [Parse, h0, hs, ho]
    rw [hp]
    refine ⟨rfl, rfl, ?_⟩
    intro ev hm
    simp only [List.cons_append, List.mem_cons, List.mem_append, List.mem_singleton,
      List.not_mem_nil, or_false] at hm
    rcases hm with rfl | hm | rfl
    · rfl
    · exact hev ev hm
    · rfl
  · intro fp e ho hd
    have hp : Parse w = ⟨none, some (GoError.errorf ("unable to load config: " ++ e.Error)),
        Event.envProcess none :: t1 ++
          [Event.osOpen c1.ACLFile none, Event.yamlDecode (some e)]⟩ := by
      simp [Parse, h0, hs, ho, hd]
    rw [hp]
    refine ⟨rfl, rfl, ?_⟩
    intro ev hm
    simp only [List.cons_append, List.mem_cons, List.mem_append, List.mem_singleton,
      List.not_mem_nil, or_false] at hm
    rcases hm with rfl | hm | rfl | rfl
    · rfl
    · exact hev ev hm
    · rfl
    · rfl
  · intro e1 e2 h
    exact open_ne_load _ _ (GoError.errorf.inj h)

/-- A load whose file is missing and a load whose file does not decode. -/
theorem reader_failures_witness :
    ((unreadableWorld.envProcess Config.zero).2 = none ∧
      unreadableWorld.osOpen "prometheus-oidc.yml" = Except.error noSuchFile ∧
      (Parse unreadableWorld).c = none ∧
      (Parse unreadableWorld).err = some (GoError.errorf
        ("unable to open config: " ++ noSuchFile.Error))) ∧
    ((malformedWorld.envProcess Config.zero).2 = none ∧
      malformedWorld.osOpen "prometheus-oidc.yml" = Except.ok "prometheus-oidc.yml" ∧
      malformedWorld.yamlDecode "prometheus-oidc.yml" = Except.error wrongShape ∧
      (Parse malformedWorld).c = none ∧
      (Parse malformedWorld).err = some (GoError.errorf
        ("unable to load config: " ++ wrongShape.Error))) :=
  ⟨⟨rfl, rfl,
      ((reader_failures unreadableWorld
        (secretStep unreadableWorld (unreadableWorld.envProcess Config.zero).1).1
        { (unreadableWorld.envProcess Config.zero).1 with
          CookieSecret := overwrite (List.replicate 64 0) unreadableWorld.randBytes }
        rfl rfl).1 noSuchFile rfl).1,
      ((reader_failures unreadableWorld
        (secretStep unreadableWorld (unreadableWorld.envProcess Config.zero).1).1
        { (unreadableWorld.envProcess Config.zero).1 with
          CookieSecret := overwrite (List.replicate 64 0) unreadableWorld.randBytes }
        rfl rfl).1 noSuchFile rfl).2.1⟩,
   ⟨rfl, rfl, rfl,
      ((reader_failures malformedWorld
        (secretStep malformedWorld (malformedWorld.envProcess Config.zero).1).1
        { (malformedWorld.envProcess Config.zero).1 with
          CookieSecret := overwrite (List.replicate 64 0) malformedWorld.randBytes }
        rfl rfl).2.1 "prometheus-oidc.yml" wrongShape rfl rfl).1,
      ((reader_failures malformedWorld
        (secretStep malformedWorld (malformedWorld.envProcess Config.zero).1).1
        { (malformedWorld.envProcess Config.zero).1 with
          CookieSecret := overwrite (List.replicate 64 0) malformedWorld.randBytes }
        rfl rfl).2.1 "prometheus-oidc.yml" wrongShape rfl rfl).2.1⟩⟩

/-! ## The cookie secret -/

theorem open_in_trace {Q : Type} (t1 t2 : List (Event Q)) (name : String)
    (err : Option GoError)
    (h : ∀ ev ∈ Event.envProcess none :: t1 ++ Event.osOpen name err :: t2,
      ev.isOpen = false) : False := by
  have := h (Event.osOpen name err) (by simp)
  simp [Event.isOpen] at this

/-- C8: when `envconfig.Process` succeeds and `COOKIE_SECRET` has `n` bytes,
`Parse` returns the error "unable to use provided secret key with n bytes, use
32 or 64", with a nil `Config` and without a call of `os.Open`, if and only if
`n` is not 0, 32 or 64. -/
theorem secret_length_error {Q : Type} (w : World Q)
    (h0 : (w.envProcess Config.zero).2 = none) :
    ((Parse w).err = some (GoError.errorf ("unable to use provided secret key with " ++
          toString (w.envProcess Config.zero).1.CookieSecret.length ++
          " bytes, use 32 or 64")) ∧
        (Parse w).c = none ∧ ∀ ev ∈ (Parse w).trace, ev.isOpen = false) ↔
      ((w.envProcess Config.zero).1.CookieSecret.length ≠ 0 ∧
        (w.envProcess Config.zero).1.CookieSecret.length ≠ 32 ∧
        (w.envProcess Config.zero).1.CookieSecret.length ≠ 64) := by
  constructor
  · rintro ⟨herr, _, hopen⟩
    rcases Parse_cases w with ⟨e0, he, _⟩ | ⟨_, t1, ⟨e1, hs, hp⟩ | ⟨c1, hs, ⟨e2, _, hp⟩ |
      ⟨fp, _, ⟨e3, _, hp⟩ | ⟨m, _, ⟨e4, _, hp⟩ | ⟨_, hp⟩⟩⟩⟩⟩
    · rw [h0] at he; cases he
    · rcases secretStep_cases w (w.envProcess Config.zero).1 with
        ⟨_, h⟩ | ⟨_, e, _, h⟩ | ⟨_, _, h⟩ | ⟨h64, h32, hz, _⟩
      · rw [h] at hs; cases hs
      · rw [h] at hs
        cases hs
        rw [hp] at herr
        simp only [Option.some.injEq, GoError.errorf.injEq, String.append_assoc] at herr
        exact absurd herr (generate_ne_use _ _)
      · rw [h] at hs; cases hs
      · exact ⟨hz, h32, h64⟩
    · rw [hp] at hopen
      exact (open_in_trace t1 [] _ _ (by simpa using hopen)).elim
    · rw [hp] at hopen
      exact (open_in_trace t1 [Event.yamlDecode (some e3)] _ _ (by simpa using hopen)).elim
    · rw [hp] at hopen
      exact (open_in_trace t1
        (Event.yamlDecode none :: (loadRoles w.ParseAndStoreACL [] m.entries).1) _ _
        (by simpa using hopen)).elim
    · rw [hp] at hopen
      exact (open_in_trace t1
        (Event.yamlDecode none :: (loadRoles w.ParseAndStoreACL [] m.entries).1) _ _
        (by simpa using hopen)).elim
  · rintro ⟨hz, h32, h64⟩
    have hs : secretStep w (w.envProcess Config.zero).1 =
        ([], Except.error (GoError.errorf ("unable to use provided secret key with " ++
          toString (w.envProcess Config.zero).1.CookieSecret.length ++
          " bytes, use 32 or 64"))) := by
      simp [secretStep, hz, h32, h64]
    have hp : Parse w = ⟨none, some (GoError.errorf
        ("unable to use provided secret key with " ++
          toString (w.envProcess Config.zero).1.CookieSecret.length ++
          " bytes, use 32 or 64")), [Event.envProcess none]⟩ := by
      simp [Parse, h0, hs]
    rw [hp]
    refine ⟨rfl, rfl, ?_⟩
    intro ev hev
    simp only [List.mem_singleton] at hev
    subst hev
    rfl

/-- A load with a `COOKIE_SECRET` of 16 bytes. -/
theorem secret_length_error_witness :
    (shortSecretWorld.envProcess Config.zero).2 = none ∧
    (shortSecretWorld.envProcess Config.zero).1.CookieSecret.length = 16 ∧
    (Parse shortSecretWorld).err = some (GoError.errorf
      ("unable to use provided secret key with " ++
        toString (shortSecretWorld.envProcess Config.zero).1.CookieSecret.length ++
        " bytes, use 32 or 64")) ∧
    (Parse shortSecretWorld).c = none :=
  ⟨rfl, rfl,
    ((secret_length_error shortSecretWorld rfl).2 (by decide)).1,
    ((secret_length_error shortSecretWorld rfl).2 (by decide)).2.1⟩

/-- C9: whenever `Parse` succeeds, the `CookieSecret` of the returned
`Config` has 32 or 64 bytes: a provided secret of 32 or 64 bytes is returned
unchanged, and an absent secret is replaced by a buffer of 64 bytes into which
`rand.Read` has written, which is what `rand.Read` delivered when it delivered
64 bytes. -/
theorem cookie_secret_length {Q : Type} (w : World Q) (c : Config)
    (h : (Parse w).c = some c) :
    (c.CookieSecret.length = 32 ∨ c.CookieSecret.length = 64) ∧
    (((w.envProcess Config.zero).1.CookieSecret.length = 32 ∨
        (w.envProcess Config.zero).1.CookieSecret.length = 64) →
      c.CookieSecret = (w.envProcess Config.zero).1.CookieSecret) ∧
    ((w.envProcess Config.zero).1.CookieSecret.length = 0 →
      c.CookieSecret = overwrite (List.replicate 64 0) w.randBytes ∧
      c.CookieSecret.length = 64 ∧
      Event.randRead 64 none ∈ (Parse w).trace ∧
      (w.randBytes.length = 64 → c.CookieSecret = w.randBytes)) := by
  obtain ⟨t1, c1, fp, m, _, hs, _, _, _, hc, _, ht⟩ := Parse_success w c h
  have hcs : c.CookieSecret = c1.CookieSecret := by rw [hc]
  rcases secretStep_cases w (w.envProcess Config.zero).1 with
    ⟨hl, h1⟩ | ⟨_, e, _, h1⟩ | ⟨hz, _, h1⟩ | ⟨_, _, _, h1⟩
  · rw [h1] at hs
    cases hs
    refine ⟨by rw [hcs]; exact hl.symm, fun _ => hcs, fun hz => ?_⟩
    rw [hz] at hl
    omega
  · rw [h1] at hs; cases hs
  · rw [h1] at hs
    cases hs
    simp only at hcs
    have hlen : c.CookieSecret.length = 64 := by
      rw [hcs, overwrite_length, List.length_replicate]
    refine ⟨Or.inr hlen, fun hl => ?_, fun _ => ⟨hcs, hlen, ?_, fun hr => ?_⟩⟩
    · rw [hz] at hl; omega
    · rw [ht]; simp
    · rw [hcs]
      simp [overwrite, hr]
  · rw [h1] at hs; cases hs

/-- A load without `COOKIE_SECRET` and a load with one of 32 bytes. -/
theorem cookie_secret_length_witness :
    ((Parse scenarioWorld).c = some scenarioConfig ∧
      (scenarioWorld.envProcess Config.zero).1.CookieSecret.length = 0 ∧
      scenarioConfig.CookieSecret.length = 64 ∧
      scenarioConfig.CookieSecret = scenarioWorld.randBytes) ∧
    ((Parse providedSecretWorld).c = some providedSecretConfig ∧
      (providedSecretWorld.envProcess Config.zero).1.CookieSecret.length = 32 ∧
      providedSecretConfig.CookieSecret =
        (providedSecretWorld.envProcess Config.zero).1.CookieSecret) :=
  ⟨⟨by decide, rfl,
      ((cookie_secret_length scenarioWorld scenarioConfig (by decide)).2.2 rfl).2.1,
      ((cookie_secret_length scenarioWorld scenarioConfig (by decide)).2.2 rfl).2.2.2 rfl⟩,
   ⟨by decide, rfl,
      (cookie_secret_length providedSecretWorld providedSecretConfig (by decide)).2.1
        (Or.inl rfl)⟩⟩

/-! ## The role-to-ACL map of a successful load -/

theorem mapKeys_builtMap {Q : Type} (store : ACL → String → Q → ACL × Option GoError)
    (m : List (String × GoMap String Q)) : mapKeys (builtMap store m) = mapKeys m := by
  simp [mapKeys, builtMap, Function.comp_def]

theorem filter_entriesOf_absent {Q : Type} (m : List (String × GoMap String Q))
    (role : String) (h : role ∉ mapKeys m) :
    (entriesOf m).filter (fun x => decide (x.1 = role)) = [] := by
  rw [List.filter_eq_nil_iff]
  intro x hx
  simp only [entriesOf, List.mem_flatMap, List.mem_map] at hx
  obtain ⟨ra, hra, e, _, rfl⟩ := hx
  simp only [decide_eq_true_eq]
  intro heq
  apply h
  rw [← heq]
  exact List.mem_map.2 ⟨ra, hra, rfl⟩

theorem filter_entriesOf {Q : Type} (m : List (String × GoMap String Q))
    (hn : (mapKeys m).Nodup) (role : String) (aclLoad : GoMap String Q)
    (hmem : (role, aclLoad) ∈ m) :
    ((entriesOf m).filter (fun x => decide (x.1 = role))).map Prod.snd = aclLoad.entries := by
  induction m with
  | nil => simp at hmem
  | cons ra rest ih =>
    obtain ⟨r, l⟩ := ra
    simp only [mapKeys, List.map_cons, List.nodup_cons] at hn
    have hsplit : entriesOf ((r, l) :: rest) =
        l.entries.map (fun e => (r, e.1, e.2)) ++ entriesOf rest := by
      simp [entriesOf]
    rw [hsplit, List.filter_append, List.map_append]
    by_cases hr : r = role
    · subst hr
      have hrest : (entriesOf rest).filter (fun x => decide (x.1 = r)) = [] :=
        filter_entriesOf_absent rest r hn.1
      have hl : aclLoad = l := by
        rcases List.mem_cons.1 hmem with h1 | h1
        · cases h1; rfl
        · exact absurd (List.mem_map.2 ⟨(r, aclLoad), h1, rfl⟩) hn.1
      rw [hrest, hl]
      have hall : (l.entries.map (fun e => (r, e.1, e.2))).filter
          (fun x => decide (x.1 = r)) = l.entries.map (fun e => (r, e.1, e.2)) := by
        rw [List.filter_eq_self]
        intro x hx
        obtain ⟨e, _, rfl⟩ := List.mem_map.1 hx
        simp
      rw [hall]
      simp [Function.comp_def]
    · have hnone : (l.entries.map (fun e => (r, e.1, e.2))).filter
          (fun x => decide (x.1 = role)) = [] := by
        rw [List.filter_eq_nil_iff]
        intro x hx
        obtain ⟨e, _, rfl⟩ := List.mem_map.1 hx
        simpa using hr
      have hin : (role, aclLoad) ∈ rest := by
        rcases List.mem_cons.1 hmem with h1 | h1
        · cases h1; exact absurd rfl hr
        · exact h1
      rw [hnone]
      simpa using ih hn.2 hin

/-- C4: whenever `Parse` succeeds, the roles that have an ACL in the
resulting `OIDCMap` are exactly the top-level role keys of the decoded
document, each of them once. -/
theorem roles_exactly_those_decoded {Q : Type} (w : World Q) (c : Config)
    (m : GoMap String (GoMap String Q)) (hp : (Parse w).c = some c)
    (hd : decodedDocument w = some m) :
    mapKeys c.OIDCMap = mapKeys m.entries ∧ (mapKeys c.OIDCMap).Nodup ∧
      ∀ role, (mapGet c.OIDCMap role).isSome = true ↔ role ∈ mapKeys m.entries := by
  obtain ⟨_, hc⟩ := Parse_success_calls w c m hp hd
  have hk : mapKeys c.OIDCMap = mapKeys m.entries := by rw [hc, mapKeys_builtMap]
  refine ⟨hk, by rw [hk]; exact m.nodup, fun role => ?_⟩
  rw [mapGet_isSome, hk]

/-- The roles of a load of `scenarioDocument`. -/
theorem roles_exactly_those_decoded_witness :
    ((Parse scenarioWorld).c = some scenarioConfig ∧
      decodedDocument scenarioWorld = some (decodeDocument scenarioDocument)) ∧
    mapKeys scenarioConfig.OIDCMap = mapKeys (decodeDocument scenarioDocument).entries ∧
    mapKeys scenarioConfig.OIDCMap = ["viewer", "admin", "guest"] :=
  ⟨⟨by decide, rfl⟩,
    (roles_exactly_those_decoded scenarioWorld scenarioConfig
      (decodeDocument scenarioDocument) (by decide) rfl).1, by decide⟩

/-- C5: whenever `Parse` succeeds, the ACL of each role of the decoded
document is what one gets from an empty ACL by applying `ParseAndStoreACL`
once to each pair under that role, identifier and constraint as decoded; the
calls made on that role's ACL are exactly those, and the calls of the whole
load are exactly the pairs of the decoded document, role by role. -/
theorem acl_built_from_own_entries {Q : Type} (w : World Q) (c : Config)
    (m : GoMap String (GoMap String Q)) (role : String) (aclLoad : GoMap String Q)
    (hp : (Parse w).c = some c) (hd : decodedDocument w = some m)
    (hmem : (role, aclLoad) ∈ m.entries) :
    mapGet c.OIDCMap role = some (applyEach w.ParseAndStoreACL emptyACL aclLoad.entries) ∧
      callsForRole role (Parse w).trace = aclLoad.entries ∧
      storeCalls (Parse w).trace = entriesOf m.entries := by
  obtain ⟨ht, hc⟩ := Parse_success_calls w c m hp hd
  refine ⟨?_, ?_, ht⟩
  · rw [hc]
    apply mapGet_of_mem
    · rw [mapKeys_builtMap]; exact m.nodup
    · exact List.mem_map.2 ⟨(role, aclLoad), hmem, rfl⟩
  · rw [callsForRole, ht]
    exact filter_entriesOf m.entries m.nodup role aclLoad hmem

/-- The ACL of `admin` in a load of `scenarioDocument`. -/
theorem acl_built_from_own_entries_witness :
    ((Parse scenarioWorld).c = some scenarioConfig ∧
      decodedDocument scenarioWorld = some (decodeDocument scenarioDocument) ∧
      ("admin", decodeMapping [("~.*", "")]) ∈ (decodeDocument scenarioDocument).entries) ∧
    mapGet scenarioConfig.OIDCMap "admin" =
      some (applyEach scenarioWorld.ParseAndStoreACL emptyACL
        (decodeMapping [("~.*", "")]).entries) ∧
    callsForRole "admin" (Parse scenarioWorld).trace = [("~.*", "")] :=
  ⟨⟨by decide, rfl, by simp [decodeDocument, decodeMapping, scenarioDocument, GoMap.set,
      GoMap.empty, mapSet]⟩,
    (acl_built_from_own_entries scenarioWorld scenarioConfig
      (decodeDocument scenarioDocument) "admin" (decodeMapping [("~.*", "")]) (by decide) rfl
      (by simp [decodeDocument, decodeMapping, scenarioDocument, GoMap.set,
        GoMap.empty, mapSet])).1,
    (acl_built_from_own_entries scenarioWorld scenarioConfig
      (decodeDocument scenarioDocument) "admin" (decodeMapping [("~.*", "")]) (by decide) rfl
      (by simp [decodeDocument, decodeMapping, scenarioDocument, GoMap.set,
        GoMap.empty, mapSet])).2.1⟩

/-! ## Default deny -/

theorem authorize_deny_of_empty (fullMatch : String → String → Bool)
    (store : List (OidcRole × ACL)) (R : OidcRole) (metric : String)
    (h : mapGet store R = none ∨ mapGet store R = some emptyACL) :
    Authorize fullMatch store [R] metric = deny := by
  rcases h with h | h
  · simp [Authorize, AggregateDecision, roleDecision, h, deny]
  · simp [Authorize, AggregateDecision, roleDecision, h, deny, aclConstraint, emptyACL, mapGet]

/-- C7: default deny.  After a successful load, a role `R` that is absent
from the decoded document has no ACL in the store, a role that declares no
entries has the empty ACL, and in both cases `Authorize` on the role set
containing just `R` denies every metric; the same holds in any store in which
`R` has no ACL or the empty ACL. -/
theorem default_deny {Q : Type} (fullMatch : String → String → Bool) (w : World Q)
    (c : Config) (m : GoMap String (GoMap String Q)) (R : OidcRole) (metric : String)
    (hp : (Parse w).c = some c) (hd : decodedDocument w = some m)
    (hR : R ∉ mapKeys m.entries ∨ ∃ aclLoad, (R, aclLoad) ∈ m.entries ∧ aclLoad.entries = []) :
    (mapGet c.OIDCMap R = none ∨ mapGet c.OIDCMap R = some emptyACL) ∧
      Authorize fullMatch c.OIDCMap [R] metric = deny ∧
      ∀ store, mapGet store R = none ∨ mapGet store R = some emptyACL →
        Authorize fullMatch store [R] metric = deny := by
  have hacl : mapGet c.OIDCMap R = none ∨ mapGet c.OIDCMap R = some emptyACL := by
    rcases hR with hR | ⟨aclLoad, hmem, hempty⟩
    · left
      rw [mapGet_eq_none, (Parse_success_calls w c m hp hd).2, mapKeys_builtMap]
      exact hR
    · right
      obtain ⟨_, hc⟩ := Parse_success_calls w c m hp hd
      rw [hc]
      apply mapGet_of_mem
      · rw [mapKeys_builtMap]; exact m.nodup
      · refine List.mem_map.2 ⟨(R, aclLoad), hmem, ?_⟩
        simp [hempty, applyEach]
  exact ⟨hacl, authorize_deny_of_empty fullMatch c.OIDCMap R metric hacl,
    fun store h => authorize_deny_of_empty fullMatch store R metric h⟩

/-- In a load of `scenarioDocument`, `guest` declares nothing and `nobody` is
not declared: both are denied, whatever the pattern matcher answers. -/
theorem default_deny_witness :
    ((Parse scenarioWorld).c = some scenarioConfig ∧
      decodedDocument scenarioWorld = some (decodeDocument scenarioDocument)) ∧
    (("guest", GoMap.empty) ∈ (decodeDocument scenarioDocument).entries ∧
      Authorize (fun _ _ => true) scenarioConfig.OIDCMap ["guest"] "cpu_usage" = deny) ∧
    ("nobody" ∉ mapKeys (decodeDocument scenarioDocument).entries ∧
      Authorize (fun _ _ => true) scenarioConfig.OIDCMap ["nobody"] "cpu_usage" = deny) :=
  ⟨⟨by decide, rfl⟩,
    ⟨by simp [decodeDocument, decodeMapping, scenarioDocument, GoMap.set, GoMap.empty, mapSet],
      (default_deny (fun _ _ => true) scenarioWorld scenarioConfig
        (decodeDocument scenarioDocument) "guest" "cpu_usage" (by decide) rfl
        (Or.inr ⟨GoMap.empty, by simp [decodeDocument, decodeMapping, scenarioDocument,
          GoMap.set, GoMap.empty, mapSet], rfl⟩)).2.1⟩,
    ⟨by decide,
      (default_deny (fun _ _ => true) scenarioWorld scenarioConfig
        (decodeDocument scenarioDocument) "nobody" "cpu_usage" (by decide) rfl
        (Or.inl (by decide))).2.1⟩⟩

/-! ## The result pair -/

theorem Parse_trace_result {Q : Type} (w : World Q) :
    (((Parse w).c.isSome = true ∧ (Parse w).err = none) ∨
      ((Parse w).c = none ∧ (Parse w).err.isSome = true)) ∧
    ((Parse w).c.isSome = true ↔
      (((w.envProcess Config.zero).1.CookieSecret.length = 64 ∨
          (w.envProcess Config.zero).1.CookieSecret.length = 32 ∨
          (w.envProcess Config.zero).1.CookieSecret.length = 0) ∧
        ∀ ev ∈ (Parse w).trace, ev.failure = none)) ∧
    ((Parse w).c.isSome = true →
      ∃ m, decodedDocument w = some m ∧
        storeCalls (Parse w).trace = entriesOf m.entries) := by
  refine ⟨?_, ⟨?_, ?_⟩, ?_⟩
  · rcases Parse_cases w with ⟨e0, _, hp⟩ | ⟨_, t1, ⟨e1, _, hp⟩ | ⟨c1, _, ⟨e2, _, hp⟩ |
      ⟨fp, _, ⟨e3, _, hp⟩ | ⟨m, _, ⟨e4, _, hp⟩ | ⟨_, hp⟩⟩⟩⟩⟩ <;> rw [hp] <;> simp
  · intro h
    obtain ⟨c, hc⟩ := Option.isSome_iff_exists.1 h
    obtain ⟨t1, c1, fp, m, _, hs, _, _, _, _, _, ht⟩ := Parse_success w c hc
    constructor
    · rcases secretStep_cases w (w.envProcess Config.zero).1 with
        ⟨hl, _⟩ | ⟨_, e, _, h1⟩ | ⟨hz, _, _⟩ | ⟨_, _, _, h1⟩
      · rcases hl with hl | hl
        · exact Or.inl hl
        · exact Or.inr (Or.inl hl)
      · rw [h1] at hs; cases hs
      · exact Or.inr (Or.inr hz)
      · rw [h1] at hs; cases hs
    · intro ev hev
      rw [ht] at hev
      simp only [List.cons_append, List.mem_cons, List.mem_append, List.mem_singleton,
        List.not_mem_nil, or_false] at hev
      rcases hev with rfl | (hev | rfl | rfl) | hev
      · rfl
      · exact secretStep_ok_events w _ c1 t1 hs ev hev
      · rfl
      · rfl
      · simp only [okRoleCalls, okCalls, List.mem_flatMap, List.mem_map] at hev
        obtain ⟨_, _, _, _, rfl⟩ := hev
        rfl
  · rintro ⟨hlen, hall⟩
    rcases Parse_cases w with ⟨e0, _, hp⟩ | ⟨_, t1, ⟨e1, hs, hp⟩ | ⟨c1, _, ⟨e2, _, hp⟩ |
      ⟨fp, _, ⟨e3, _, hp⟩ | ⟨m, _, ⟨e4, hl, hp⟩ | ⟨_, hp⟩⟩⟩⟩⟩
    · have := hall (Event.envProcess (some e0)) (by rw [hp]; simp)
      simp [Event.failure] at this
    · rcases secretStep_cases w (w.envProcess Config.zero).1 with
        ⟨_, h1⟩ | ⟨_, e, _, h1⟩ | ⟨_, _, h1⟩ | ⟨h64, h32, hz, _⟩
      · rw [h1] at hs; cases hs
      · rw [h1] at hs
        cases hs
        have := hall (Event.randRead 64 (some e)) (by rw [hp]; simp)
        simp [Event.failure] at this
      · rw [h1] at hs; cases hs
      · rcases hlen with h | h | h
        · exact absurd h h64
        · exact absurd h h32
        · exact absurd h hz
    · have := hall (Event.osOpen c1.ACLFile (some e2)) (by rw [hp]; simp)
      simp [Event.failure] at this
    · have := hall (Event.yamlDecode (some e3)) (by rw [hp]; simp)
      simp [Event.failure] at this
    · obtain ⟨before, r2, k, q, ht, _⟩ := loadRoles_err w.ParseAndStoreACL m.entries e4 [] hl
      have := hall (Event.parseAndStoreACL r2 k q (some e4)) (by rw [hp, ht]; simp)
      simp [Event.failure] at this
    · rw [hp]; rfl
  · intro h
    obtain ⟨c, hc⟩ := Option.isSome_iff_exists.1 h
    obtain ⟨t1, c1, fp, m, _, _, _, _, hd, _, _, _⟩ := Parse_success w c hc
    exact ⟨m, hd, (Parse_success_calls w c m hc hd).1⟩

theorem loadEntries_none_iff {Q : Type} (store : ACL → String → Q → ACL × Option GoError)
    (role : OidcRole) (entries : List (String × Q)) :
    ∀ acl, (loadEntries store role acl entries).2.2 = none ↔
      entriesSucceed store acl entries = true := by
  induction entries with
  | nil => intro acl; simp [loadEntries, entriesSucceed]
  | cons p rest ih =>
    obtain ⟨k, q⟩ := p
    intro acl
    cases hs : (store acl k q).2 with
    | some e => simp [loadEntries, entriesSucceed, hs]
    | none =>
      simp only [loadEntries, entriesSucceed, hs, Option.isNone_none, Bool.true_and]
      exact ih _

theorem loadRoles_none_iff {Q : Type} (store : ACL → String → Q → ACL × Option GoError)
    (rest : List (String × GoMap String Q)) :
    ∀ om, (mapKeys rest).Nodup → (∀ r ∈ mapKeys rest, r ∉ mapKeys om) →
      ((loadRoles store om rest).2.2 = none ↔
        ∀ ra ∈ rest, entriesSucceed store emptyACL ra.2.entries = true) := by
  induction rest with
  | nil => intro om _ _; simp [loadRoles]
  | cons ra rest ih =>
    obtain ⟨role, aclLoad⟩ := ra
    intro om hn hf
    simp only [mapKeys, List.map_cons, List.nodup_cons] at hn
    have hfresh : role ∉ mapKeys om := hf role (by simp [mapKeys])
    rw [loadRoles_cons_fresh store om role aclLoad rest hfresh]
    have hf2 : ∀ acl : ACL, ∀ r ∈ mapKeys rest, r ∉ mapKeys (om ++ [(role, acl)]) := by
      intro acl r hr hmem
      simp only [mapKeys, List.map_append, List.map_cons, List.map_nil, List.mem_append,
        List.mem_singleton] at hmem
      rcases hmem with hm | hm
      · exact hf r (by simp only [mapKeys, List.map_cons, List.mem_cons]; exact Or.inr hr) hm
      · exact hn.1 (hm ▸ hr)
    cases he : (loadEntries store role emptyACL aclLoad.entries).2.2 with
    | some e =>
      have hne : ¬ entriesSucceed store emptyACL aclLoad.entries = true := by
        rw [← loadEntries_none_iff store role aclLoad.entries emptyACL, he]
        simp
      simp only [reduceCtorEq, false_iff]
      intro hall
      exact hne (hall (role, aclLoad) (List.mem_cons_self _ _))
    | none =>
      have hok : entriesSucceed store emptyACL aclLoad.entries = true :=
        (loadEntries_none_iff store role aclLoad.entries emptyACL).1 he
      simp only
      rw [ih _ hn.2 (hf2 _)]
      constructor
      · intro hall ra hra
        rcases List.mem_cons.1 hra with h1 | h1
        · rw [h1]; exact hok
        · exact hall ra h1
      · intro hall ra hra
        exact hall ra (List.mem_cons_of_mem _ hra)

theorem secretStep_ok_inv {Q : Type} (w : World Q) (c c1 : Config) (t1 : List (Event Q))
    (hs : secretStep w c = (t1, Except.ok c1)) :
    (c.CookieSecret.length = 64 ∨ c.CookieSecret.length = 32 ∨
      (c.CookieSecret.length = 0 ∧ w.randErr = none)) ∧ c1.ACLFile = c.ACLFile := by
  rcases secretStep_cases w c with ⟨hl, h⟩ | ⟨_, e, _, h⟩ | ⟨hz, hr, h⟩ | ⟨_, _, _, h⟩ <;>
    rw [h] at hs <;> cases hs
  · rcases hl with hl | hl
    · exact ⟨Or.inl hl, rfl⟩
    · exact ⟨Or.inr (Or.inl hl), rfl⟩
  · exact ⟨Or.inr (Or.inr ⟨hz, hr⟩), rfl⟩

theorem secretStep_ok_of {Q : Type} (w : World Q) (c : Config)
    (h : c.CookieSecret.length = 64 ∨ c.CookieSecret.length = 32 ∨
      (c.CookieSecret.length = 0 ∧ w.randErr = none)) :
    ∃ t1 c1, secretStep w c = (t1, Except.ok c1) ∧ c1.ACLFile = c.ACLFile := by
  rcases secretStep_cases w c with ⟨_, h1⟩ | ⟨hz, e, he, _⟩ | ⟨_, _, h1⟩ | ⟨h64, h32, hz, _⟩
  · exact ⟨_, _, h1, rfl⟩
  · rcases h with h | h | ⟨_, hr⟩
    · omega
    · omega
    · rw [he] at hr; cases hr
  · exact ⟨_, _, h1, rfl⟩
  · rcases h with h | h | ⟨h, _⟩
    · exact absurd h h64
    · exact absurd h h32
    · exact absurd h hz

/-- C10: `Parse` returns either a `Config` and a nil error, or a nil `Config`
and an error, never both and never neither.  It returns a `Config` exactly when
every step succeeds: `envconfig.Process` returns no error, the cookie secret
has 64 or 32 bytes or has none and `rand.Read` returns no error, `os.Open` of
`ACLFile` returns a file, the decoder returns a document, and for every role of
that document every call of `ParseAndStoreACL` over the role's pairs, from an
empty ACL on, returns no error.  That is the case exactly when the secret has
an accepted length and no call `Parse` made came back with an error, and then
the calls of `ParseAndStoreACL` it made are all the pairs of the decoded
document. -/
theorem parse_result_exclusive {Q : Type} (w : World Q) :
    (((Parse w).c.isSome = true ∧ (Parse w).err = none) ∨
      ((Parse w).c = none ∧ (Parse w).err.isSome = true)) ∧
    ((Parse w).c.isSome = true ↔
      ((w.envProcess Config.zero).2 = none ∧
        ((w.envProcess Config.zero).1.CookieSecret.length = 64 ∨
          (w.envProcess Config.zero).1.CookieSecret.length = 32 ∨
          ((w.envProcess Config.zero).1.CookieSecret.length = 0 ∧ w.randErr = none)) ∧
        ∃ fp m, w.osOpen (w.envProcess Config.zero).1.ACLFile = Except.ok fp ∧
          w.yamlDecode fp = Except.ok m ∧
          ∀ ra ∈ m.entries,
            entriesSucceed w.ParseAndStoreACL emptyACL ra.2.entries = true)) ∧
    ((Parse w).c.isSome = true ↔
      (((w.envProcess Config.zero).1.CookieSecret.length = 64 ∨
          (w.envProcess Config.zero).1.CookieSecret.length = 32 ∨
          (w.envProcess Config.zero).1.CookieSecret.length = 0) ∧
        ∀ ev ∈ (Parse w).trace, ev.failure = none)) ∧
    ((Parse w).c.isSome = true →
      ∃ m, decodedDocument w = some m ∧
        storeCalls (Parse w).trace = entriesOf m.entries) := by
  refine ⟨(Parse_trace_result w).1, ⟨?_, ?_⟩, (Parse_trace_result w).2.1,
    (Parse_trace_result w).2.2⟩
  · intro h
    rcases Parse_cases w with ⟨e0, _, hp⟩ | ⟨h0, t1, ⟨e1, _, hp⟩ | ⟨c1, hs, ⟨e2, _, hp⟩ |
      ⟨fp, ho, ⟨e3, _, hp⟩ | ⟨m, hd, ⟨e4, _, hp⟩ | ⟨hl, _⟩⟩⟩⟩⟩
    · rw [hp] at h; simp at h
    · rw [hp] at h; simp at h
    · rw [hp] at h; simp at h
    · rw [hp] at h; simp at h
    · rw [hp] at h; simp at h
    · obtain ⟨hlen, hfile⟩ := secretStep_ok_inv w _ c1 t1 hs
      refine ⟨h0, hlen, fp, m, by rw [← hfile]; exact ho, hd, ?_⟩
      exact (loadRoles_none_iff w.ParseAndStoreACL m.entries [] m.nodup
        (by intro r _; simp [mapKeys])).1 hl
  · rintro ⟨h0, hlen, fp, m, ho, hd, hall⟩
    obtain ⟨t1, c1, hs, hfile⟩ := secretStep_ok_of w (w.envProcess Config.zero).1 hlen
    rw [← hfile] at ho
    have hl : (loadRoles w.ParseAndStoreACL [] m.entries).2.2 = none :=
      (loadRoles_none_iff w.ParseAndStoreACL m.entries [] m.nodup
        (by intro r _; simp [mapKeys])).2 hall
    simp [Parse, h0, hs, ho, hd, hl]

/-- Two loads: in `scenarioWorld` every step succeeds and `Parse` returns a
`Config` and a nil error; in `brokenWorld` a call of `ParseAndStoreACL` fails
and `Parse` returns a nil `Config` and an error. -/
theorem parse_result_exclusive_witness :
    ((scenarioWorld.envProcess Config.zero).2 = none ∧
      scenarioWorld.randErr = none ∧
      scenarioWorld.osOpen "prometheus-oidc.yml" = Except.ok "prometheus-oidc.yml" ∧
      scenarioWorld.yamlDecode "prometheus-oidc.yml" =
        Except.ok (decodeDocument scenarioDocument) ∧
      (Parse scenarioWorld).c.isSome = true ∧ (Parse scenarioWorld).err = none) ∧
    (entriesSucceed brokenWorld.ParseAndStoreACL emptyACL
        [("cpu_usage", "a"), ("~(", "b"), ("mem_usage", "c")] = false ∧
      ¬ (Parse brokenWorld).c.isSome = true ∧
      (Parse brokenWorld).c = none ∧ (Parse brokenWorld).err.isSome = true) :=
  ⟨⟨rfl, rfl, rfl, rfl,
      (parse_result_exclusive scenarioWorld).2.1.2
        ⟨rfl, Or.inr (Or.inr ⟨rfl, rfl⟩), "prometheus-oidc.yml",
          decodeDocument scenarioDocument, rfl, rfl, by decide⟩,
      ((parse_result_exclusive scenarioWorld).1.resolve_right
        (fun h => absurd h.1 (by decide))).2⟩,
    ⟨by decide,
      fun h =>
        match (parse_result_exclusive brokenWorld).2.1.1 h with
        | ⟨_, _, _, _, _, hd, hall⟩ =>
          absurd (fun ra hra => hall ra ((Except.ok.inj hd) ▸ hra)) (by decide :
            ¬ ∀ ra ∈ (decodeDocument brokenDocument).entries,
              entriesSucceed brokenWorld.ParseAndStoreACL emptyACL ra.2.entries = true),
      ((parse_result_exclusive brokenWorld).1.resolve_left
        (fun h => absurd h.1 (by decide))).1,
      ((parse_result_exclusive brokenWorld).1.resolve_left
        (fun h => absurd h.1 (by decide))).2⟩⟩

/-! ## What reaches `ParseAndStoreACL` -/

theorem nodup_entriesOf {Q : Type} (m : List (String × GoMap String Q))
    (hn : (mapKeys m).Nodup) : ((entriesOf m).map (fun x => (x.1, x.2.1))).Nodup := by
  induction m with
  | nil => simp [entriesOf]
  | cons ra rest ih =>
    obtain ⟨r, l⟩ := ra
    simp only [mapKeys, List.map_cons, List.nodup_cons] at hn
    have hsplit : entriesOf ((r, l) :: rest) =
        l.entries.map (fun e => (r, e.1, e.2)) ++ entriesOf rest := by
      simp [entriesOf]
    rw [hsplit, List.map_append, List.nodup_append]
    refine ⟨?_, ih hn.2, ?_⟩
    · have h1 : (l.entries.map (fun e => (r, e.1, e.2))).map (fun x => (x.1, x.2.1)) =
          (l.entries.map Prod.fst).map (fun k => (r, k)) := by
        simp [Function.comp_def]
      rw [h1]
      exact l.nodup.map (fun a b hab => (Prod.mk.inj hab).2)
    · intro x hx1 hx2
      simp only [List.mem_map, entriesOf, List.mem_flatMap] at hx1 hx2
      obtain ⟨_, ⟨e, _, rfl⟩, rfl⟩ := hx1
      obtain ⟨_, ⟨ra, hra, e2, _, rfl⟩, heq⟩ := hx2
      apply hn.1
      have : ra.1 = r := (Prod.mk.inj heq).1
      rw [← this]
      exact List.mem_map.2 ⟨ra, hra, rfl⟩

theorem Parse_calls {Q : Type} (w : World Q) :
    (decodedDocument w = none ∧ storeCalls (Parse w).trace = []) ∨
    ∃ m, decodedDocument w = some m ∧
      ∃ tail, entriesOf m.entries = storeCalls (Parse w).trace ++ tail := by
  have hfront : ∀ (t1 t2 : List (Event Q)),
      (secretStep w (w.envProcess Config.zero).1).1 = t1 →
      (∀ ev ∈ t2, ev.isStore = false) →
      storeCalls (Event.envProcess none :: t1 ++ t2) = [] := by
    intro t1 t2 ht h2
    apply storeCalls_of_no_store
    intro ev hev
    simp only [List.cons_append, List.mem_cons, List.mem_append] at hev
    rcases hev with rfl | hev | hev
    · rfl
    · exact (secretStep_events w (w.envProcess Config.zero).1 ev (by rw [ht]; exact hev)).1
    · exact h2 ev hev
  rcases Parse_cases w with ⟨e0, h0, hp⟩ | ⟨h0, t1, ⟨e1, hs, hp⟩ | ⟨c1, hs, ⟨e2, ho, hp⟩ |
    ⟨fp, ho, ⟨e3, hd, hp⟩ | ⟨m, hd, hload⟩⟩⟩⟩
  · left
    exact ⟨by simp [decodedDocument, h0], by rw [hp]; rfl⟩
  · left
    refine ⟨by simp [decodedDocument, h0, hs], ?_⟩
    rw [hp]
    simpa using hfront t1 [] (by rw [hs]) (by simp)
  · left
    refine ⟨by simp [decodedDocument, h0, hs, ho], ?_⟩
    rw [hp]
    exact hfront t1 _ (by rw [hs]) (by simp [Event.isStore])
  · left
    refine ⟨by simp [decodedDocument, h0, hs, ho, hd], ?_⟩
    rw [hp]
    exact hfront t1 _ (by rw [hs]) (by simp [Event.isStore])
  · right
    refine ⟨m, decodedDocument_eq w t1 c1 fp m h0 hs ho hd, ?_⟩
    obtain ⟨tail, htail⟩ := loadRoles_calls w.ParseAndStoreACL m.entries []
    have htr : storeCalls (Parse w).trace =
        storeCalls (loadRoles w.ParseAndStoreACL [] m.entries).1 := by
      have h1 := hfront t1 [Event.osOpen c1.ACLFile none, Event.yamlDecode none]
        (by rw [hs]) (by simp [Event.isStore])
      have h2 : ∀ t2 : List (Event Q), storeCalls (Event.envProcess none :: t1 ++
          [Event.osOpen c1.ACLFile none, Event.yamlDecode none] ++ t2) = storeCalls t2 := by
        intro t2
        rw [storeCalls_append, h1, List.nil_append]
      rcases hload with ⟨e4, _, hp⟩ | ⟨_, hp⟩ <;> rw [hp] <;> exact h2 _
    exact ⟨tail, by rw [htr]; exact htail⟩

/-- A policy that declares one identifier twice under a role is not
rejected.  `duplicateDocument` declares `cpu_usage` twice under `viewer`; the
load succeeds, returns a `Config`, and the later declaration has replaced
the earlier one, with the duplicate-rejecting compiler of the specification in
place. -/
theorem duplicate_not_rejected :
    declaredUnder duplicateDocument "viewer" =
      [("cpu_usage", "namespace=prod"), ("cpu_usage", "namespace=dev")] ∧
    decodedDocument duplicateWorld = some (decodeDocument duplicateDocument) ∧
    (Parse duplicateWorld).err = none ∧
    (Parse duplicateWorld).c.map (fun c => c.OIDCMap) =
      some [("viewer", ⟨[("cpu_usage", "namespace=dev")], []⟩)] ∧
    storeCalls (Parse duplicateWorld).trace = [("viewer", "cpu_usage", "namespace=dev")] :=
  ⟨by decide, rfl, by decide, by decide, by decide⟩

/-- C2, as the code has it: in every run of `Parse`, no two calls of
`ParseAndStoreACL` have the same role and the same identifier.  The pairs come
from the decoded Go map, which holds an identifier once per role, so a
re-declaration in the document never reaches the compiler. -/
theorem store_calls_distinct {Q : Type} (w : World Q) :
    ((storeCalls (Parse w).trace).map (fun x => (x.1, x.2.1))).Nodup := by
  rcases Parse_calls w with ⟨_, h⟩ | ⟨m, _, tail, h⟩
  · rw [h]; exact List.nodup_nil
  · have hn := nodup_entriesOf m.entries m.nodup
    rw [h, List.map_append] at hn
    exact (List.nodup_append.1 hn).1

/-- Declaration order is not kept.  `orderedDocument` declares `~node_.*`
before `~.*_total` under `viewer`.  `orderedMapSwapped` is the same Go map as
the decoded document; in a load that visits it in its order, `Parse` hands
`~.*_total` to `ParseAndStoreACL` first and the `Regex` list has that order,
while another load of the same document has the declared order. -/
theorem declaration_order_lost :
    sameContent orderedMapSwapped (decodeDocument orderedDocument) = true ∧
    declaredUnder orderedDocument "viewer" =
      [("~node_.*", "first"), ("~.*_total", "second")] ∧
    decodedDocument orderedWorldSwapped = some orderedMapSwapped ∧
    callsForRole "viewer" (Parse orderedWorldSwapped).trace =
      [("~.*_total", "second"), ("~node_.*", "first")] ∧
    (Parse orderedWorldSwapped).c.map (fun c => c.OIDCMap) =
      some [("viewer", ⟨[], [(".*_total", "second"), ("node_.*", "first")]⟩)] ∧
    decodedDocument orderedWorld = some (decodeDocument orderedDocument) ∧
    (Parse orderedWorld).c.map (fun c => c.OIDCMap) =
      some [("viewer", ⟨[], [("node_.*", "first"), (".*_total", "second")]⟩)] :=
  ⟨by decide, by decide, rfl, by decide, by decide, rfl, by decide⟩

/-- C3, as the code has it: for every role of the decoded document, the
pairs `Parse` hands to `ParseAndStoreACL` on that role's ACL are the pairs of
the role's decoded map in the order in which the loop visits that map: an
initial run of them in every load, all of them when the load succeeds. -/
theorem calls_follow_visit_order {Q : Type} (w : World Q)
    (m : GoMap String (GoMap String Q)) (role : String) (aclLoad : GoMap String Q)
    (hd : decodedDocument w = some m) (hmem : (role, aclLoad) ∈ m.entries) :
    (∃ tail, aclLoad.entries = callsForRole role (Parse w).trace ++ tail) ∧
      ((Parse w).c.isSome = true → callsForRole role (Parse w).trace = aclLoad.entries) := by
  constructor
  · rcases Parse_calls w with ⟨hnone, _⟩ | ⟨m2, hd2, tail, h⟩
    · rw [hd] at hnone; cases hnone
    · rw [hd] at hd2
      cases hd2
      have hf := filter_entriesOf m.entries m.nodup role aclLoad hmem
      rw [h, List.filter_append, List.map_append] at hf
      exact ⟨_, hf.symm⟩
  · intro h
    obtain ⟨c, hc⟩ := Option.isSome_iff_exists.1 h
    rw [callsForRole, (Parse_success_calls w c m hc hd).1]
    exact filter_entriesOf m.entries m.nodup role aclLoad hmem

/-- A load of `orderedDocument` that visits the entries of `viewer` in the
swapped order. -/
theorem calls_follow_visit_order_witness :
    (decodedDocument orderedWorldSwapped = some orderedMapSwapped ∧
      ("viewer", decodeMapping [("~.*_total", "second"), ("~node_.*", "first")]) ∈
        orderedMapSwapped.entries ∧
      (Parse orderedWorldSwapped).c.isSome = true) ∧
    callsForRole "viewer" (Parse orderedWorldSwapped).trace =
      (decodeMapping [("~.*_total", "second"), ("~node_.*", "first")]).entries :=
  ⟨⟨rfl, by simp [orderedMapSwapped, decodeMapping, GoMap.set, GoMap.empty, mapSet],
      by decide⟩,
    (calls_follow_visit_order orderedWorldSwapped orderedMapSwapped "viewer"
      (decodeMapping [("~.*_total", "second"), ("~node_.*", "first")]) rfl
      (by simp [orderedMapSwapped, decodeMapping, GoMap.set, GoMap.empty, mapSet])).2
      (by decide)⟩

end PromOidc
